import Mathlib

/-!
# MoniSenso: bounded buffer, reading classifier, collector and consumers

A shallow embedding of `MonitoreoSensores/MonitoreoSensores/buffer.cpp`,
`monitor.cpp` (the copy of `monitor.cpp` one directory up is the same code
without the comments and with another text for the pipe error) and the
`write` of `sensor.cpp`.

* `std::string` is `String`, one `Char` per byte.
* A blocking call (`Buffer::add` on a full queue, `Buffer::remove` on an empty
  one) is `none`: the calling thread stays in `pthread_cond_wait` and the queue
  is not touched.
* An exception of `std::stoi` / `std::stof` is `Except.error`; a thread that
  does not catch it ends with the status `thrown`.
* A thread is a function from the input it gets (the results of `read`, the
  tokens `remove` returns) to the calls it makes, in program order.
* The three threads on the two buffers are a state machine, `System`, moved
  one thread at a time by a schedule.
* A line written to a file is the pair of the value and the time; the text
  the stream makes of the value is not modelled.
-/

namespace MoniSenso

/-! ## buffer.cpp -/

/-- Modelled from the spec: the type of the member `size`, declared in
`buffer.h`, which is missing. The capacity as `dataQueue.size() >= size`
compares it: the `int` given to the constructor converted to `std::size_t`
(64 bit). For `0 ≤ n < 2 ^ 64` the conversion is the identity whichever
integer type the member has. -/
def toSizeT (n : Int) : Nat := (n % 2 ^ 64).toNat

/-- Modelled from the spec: the declaration of the class `Buffer` in
`buffer.h`, which is missing. The spec gives the queue an ordered sequence of
pending string tokens and a configured capacity; `buffer.cpp` uses them as
`dataQueue` (`push`, `front`, `pop`, `empty`, `size`) and `size` (set from the
`int` of the constructor). The head of the list is the front of the queue. -/
structure Buffer where
  size : Int
  dataQueue : List String
deriving DecidableEq

/-- `Buffer::Buffer(int size)`: an empty queue of the given capacity. -/
def Buffer.init (size : Int) : Buffer := { size := size, dataQueue := [] }

/-- `Buffer::add`: while `dataQueue.size() >= size` the caller waits (`none`);
otherwise `data` is pushed at the back. -/
def Buffer.add (b : Buffer) (data : String) : Option Buffer :=
  if toSizeT b.size ≤ b.dataQueue.length then none
  else some { b with dataQueue := b.dataQueue ++ [data] }

/-- `Buffer::remove`: while the queue is empty the caller waits (`none`);
otherwise the front element is popped and returned. -/
def Buffer.remove (b : Buffer) : Option (String × Buffer) :=
  match b.dataQueue with
  | [] => none
  | data :: rest => some (data, { b with dataQueue := rest })

/-- A call on one `Buffer`. -/
inductive Op where
  | add (data : String)
  | remove
deriving DecidableEq

/-- A buffer together with the history of its completed calls: the arguments
of the completed `add`s and the values returned by the completed `remove`s. -/
structure Run where
  buf : Buffer
  added : List String
  removed : List String
deriving DecidableEq

/-- The run that starts from a freshly constructed buffer. -/
def Run.start (size : Int) : Run :=
  { buf := Buffer.init size, added := [], removed := [] }

/-- One completed call; `none` when the call cannot complete in this state. -/
def Run.step (r : Run) : Op → Option Run
  | .add data =>
    match r.buf.add data with
    | some b => some { buf := b, added := r.added ++ [data], removed := r.removed }
    | none => none
  | .remove =>
    match r.buf.remove with
    | some (data, b) => some { buf := b, added := r.added, removed := r.removed ++ [data] }
    | none => none

/-- A sequence of completed calls, in the order in which they held the mutex. -/
def Run.exec (r : Run) : List Op → Option Run
  | [] => some r
  | op :: ops =>
    match r.step op with
    | some r' => r'.exec ops
    | none => none

/-! ## The library calls of monitor.cpp: `std::stoi` and `std::stof` -/

deriving instance DecidableEq for Except

/-- The two exceptions `std::stoi` and `std::stof` throw. -/
inductive StoError where
  | invalid_argument
  | out_of_range
deriving DecidableEq

/-- `isspace` in the "C" locale: space, `\t`, `\n`, `\v`, `\f`, `\r`. -/
def isspace (c : Char) : Bool := c.toNat == 32 || (9 ≤ c.toNat && c.toNat ≤ 13)

/-- `isdigit`: `0` to `9`. -/
def isdigit (c : Char) : Bool := 48 ≤ c.toNat && c.toNat ≤ 57

/-- `tolower` in the "C" locale. -/
def tolower (c : Char) : Char :=
  if 65 ≤ c.toNat ∧ c.toNat ≤ 90 then Char.ofNat (c.toNat + 32) else c

/-- `isxdigit`: a decimal digit or a letter `a` to `f` in either case. -/
def isxdigit (c : Char) : Bool :=
  isdigit c || (97 ≤ (tolower c).toNat && (tolower c).toNat ≤ 102)

/-- Value of one decimal or hexadecimal digit. -/
def digitValue (c : Char) : Nat :=
  if isdigit c then c.toNat - 48 else (tolower c).toNat - 87

/-- Value of a digit string in the given base, most significant digit first. -/
def digitsValue (base : Nat) (ds : List Char) : Nat :=
  ds.foldl (fun acc c => base * acc + digitValue c) 0

/-- The signed integer `(-1)^neg * m`. -/
def signed (neg : Bool) (m : Nat) : Int := if neg then -(m : Int) else (m : Int)

/-- An optional sign: whether it is `-`, and the rest of the input. -/
def takeSign : List Char → Bool × List Char
  | c :: cs => if c = '-' then (true, cs) else if c = '+' then (false, cs) else (false, c :: cs)
  | [] => (false, [])

/-- `std::stoi(str, &pos)` (base 10), which is `strtol` plus a range check:
leading white space is skipped, then an optional sign and the longest run of
decimal digits are read. No digit: `invalid_argument`. A value outside
`int`: `out_of_range`. Otherwise the value and `pos`, the number of characters
read (white space and sign included). -/
def stoi (str : String) : Except StoError (Int × Nat) :=
  let s := str.data.dropWhile isspace
  let sr := takeSign s
  let ds := sr.2.takeWhile isdigit
  if ds.isEmpty then .error .invalid_argument
  else
    let v : Int := signed sr.1 (digitsValue 10 ds)
    if v < -2147483648 ∨ 2147483647 < v then .error .out_of_range
    else .ok (v, str.data.length - sr.2.length + ds.length)

/-- A `float`: a finite binary32 number `(-1)^neg * m * 2^e`, an infinity or a
NaN. -/
inductive FloatVal where
  | finite (neg : Bool) (m : Nat) (e : Int)
  | inf (neg : Bool)
  | nan
deriving DecidableEq

/-- The comparison `value >= 0.0f`: true of `-0.0f`, false of a NaN. -/
def FloatVal.geZero : FloatVal → Bool
  | .finite neg m _ => !neg || m == 0
  | .inf neg => !neg
  | .nan => false

/-- Number of binary digits of `n` (`0` for `0`), by halving at most `fuel` times. -/
def bitLenAux : Nat → Nat → Nat
  | 0, _ => 0
  | fuel + 1, n => if n = 0 then 0 else bitLenAux fuel (n / 2) + 1

/-- Number of binary digits of `n`. -/
def bitLen (n : Nat) : Nat := bitLenAux n n

/-- The fraction `num / den` divided by `2 ^ k`. -/
def scale2 (num den : Nat) (k : Int) : Nat × Nat :=
  if 0 ≤ k then (num, den * 2 ^ k.toNat) else (num * 2 ^ (-k).toNat, den)

/-- The integer nearest to `n / d`, ties to the even one. -/
def roundNearestEven (n d : Nat) : Nat :=
  let q := n / d
  let r := n % d
  if 2 * r < d then q
  else if d < 2 * r then q + 1
  else if q % 2 = 0 then q else q + 1

/-- Rounding of the exact value `num / den` (`den > 0`) to binary32, to
nearest, ties to even, as `strtof` does it, with the `ERANGE` cases as
`out_of_range`: a result beyond the largest finite `float`, and a value that
is not a `float` exactly and stays below the smallest normal number
`2 ^ (-126)` when rounded to 24 bits. (C leaves `ERANGE` on underflow to the
implementation; this is glibc on x86-64.) -/
def roundBinary32 (neg : Bool) (num den : Nat) : Except StoError FloatVal :=
  if num = 0 then .ok (.finite neg 0 0)
  else
    let l : Int := (bitLen num : Int) - (bitLen den : Int)
    let e : Int := if (scale2 num den l).2 ≤ (scale2 num den l).1 then l else l - 1
    if e < -126 then
      let nd := scale2 num den (-149)
      if nd.1 % nd.2 = 0 then .ok (.finite neg (nd.1 / nd.2) (-149))
      else if e = -127 ∧
          roundNearestEven (scale2 num den (-150)).1 (scale2 num den (-150)).2 = 16777216 then
        .ok (.finite neg 8388608 (-149))
      else .error .out_of_range
    else
      let nd := scale2 num den (e - 23)
      let m := roundNearestEven nd.1 nd.2
      let me : Nat × Int := if m = 16777216 then (8388608, e - 22) else (m, e - 23)
      if 104 < me.2 then .error .out_of_range
      else .ok (.finite neg me.1 me.2)

/-- The `float` for the digit string `ds` times `base ^ e` (`base` is `10`
with `limHi = 38`, `limLo = 45` or `2` with `limHi = 127`, `limLo = 150`).
The two tests on `e` only avoid a huge power: beyond `limHi` the value
overflows, and below `-limLo` less the digit count it is under half of the
smallest `float`. -/
def digitsToFloat (neg : Bool) (base radix : Nat) (limHi limLo : Int)
    (ds : List Char) (e : Int) : Except StoError FloatVal :=
  let m := digitsValue radix ds
  if m = 0 then .ok (.finite neg 0 0)
  else if limHi < e then .error .out_of_range
  else if e + ds.length * (if radix = 16 then 4 else 1) < -limLo then .error .out_of_range
  else if 0 ≤ e then roundBinary32 neg (m * base ^ e.toNat) 1
  else roundBinary32 neg m (base ^ (-e).toNat)

/-- The digits after an optional radix point: the digits and the number of
characters read (point included). -/
def takeFraction (isd : Char → Bool) : List Char → List Char × Nat
  | c :: cs => if c = '.' then (cs.takeWhile isd, 1 + (cs.takeWhile isd).length) else ([], 0)
  | [] => ([], 0)

/-- An optional exponent part: the marker (`e` or `p`, either case), an
optional sign and at least one decimal digit. Its value and the number of
characters read; `(0, 0)` when there is none. -/
def takeExponent (marker : Char) : List Char → Int × Nat
  | c :: cs =>
    if tolower c = marker then
      let sr := takeSign cs
      let ds := sr.2.takeWhile isdigit
      if ds.isEmpty then (0, 0)
      else (signed sr.1 (digitsValue 10 ds), 1 + (cs.length - sr.2.length) + ds.length)
    else (0, 0)
  | [] => (0, 0)

/-- A character of the sequence in `nan(...)`: a digit, a letter or `_`. -/
def isNChar (c : Char) : Bool :=
  isdigit c || (97 ≤ (tolower c).toNat && (tolower c).toNat ≤ 122) || c.toNat == 95

/-- The number read by `strtof` after white space and sign have been taken
off: `inf` / `infinity`, `nan` / `nan(chars)`, a hexadecimal or a decimal
floating constant, the longest that matches. The value and the number of
characters read. -/
def strtofBody (neg : Bool) (body : List Char) : Except StoError (FloatVal × Nat) :=
  let low := body.map tolower
  if low.take 3 = ['i', 'n', 'f'] then
    .ok (.inf neg, if low.take 8 = ['i', 'n', 'f', 'i', 'n', 'i', 't', 'y'] then 8 else 3)
  else if low.take 3 = ['n', 'a', 'n'] then
    match body.drop 3 with
    | c :: cs =>
      if c = '(' then
        match cs.dropWhile isNChar with
        | d :: _ => if d = ')' then .ok (.nan, 3 + 1 + (cs.takeWhile isNChar).length + 1)
                    else .ok (.nan, 3)
        | [] => .ok (.nan, 3)
      else .ok (.nan, 3)
    | [] => .ok (.nan, 3)
  else
    let hi := (body.drop 2).takeWhile isxdigit
    let hf := takeFraction isxdigit ((body.drop 2).drop hi.length)
    if low.take 2 = ['0', 'x'] ∧ ¬ (hi ++ hf.1).isEmpty then
      let ex := takeExponent 'p' ((body.drop 2).drop (hi.length + hf.2))
      match digitsToFloat neg 2 16 127 150 (hi ++ hf.1) (ex.1 - 4 * hf.1.length) with
      | .ok v => .ok (v, 2 + hi.length + hf.2 + ex.2)
      | .error err => .error err
    else
      let di := body.takeWhile isdigit
      let df := takeFraction isdigit (body.drop di.length)
      if (di ++ df.1).isEmpty then .error .invalid_argument
      else
        let ex := takeExponent 'e' (body.drop (di.length + df.2))
        match digitsToFloat neg 10 10 38 45 (di ++ df.1) (ex.1 - df.1.length) with
        | .ok v => .ok (v, di.length + df.2 + ex.2)
        | .error err => .error err

/-- `std::stof(str, &pos)`, which is `strtof` with `ERANGE` turned into
`out_of_range` and "nothing read" into `invalid_argument`. -/
def stof (str : String) : Except StoError (FloatVal × Nat) :=
  let s := str.data.dropWhile isspace
  let sr := takeSign s
  match strtofBody sr.1 sr.2 with
  | .ok (v, n) => .ok (v, str.data.length - sr.2.length + n)
  | .error err => .error err

/-! ## monitor.cpp -/

/-- `is_float`: `std::stof` succeeds and read the whole string. -/
def is_float (str : String) : Bool :=
  match stof str with
  | .ok (_, pos) => pos == str.length
  | .error _ => false

/-- `is_integer`: `std::stoi` succeeds and read the whole string. -/
def is_integer (str : String) : Bool :=
  match stoi str with
  | .ok (_, pos) => pos == str.length
  | .error _ => false


/-- The three outcomes of the test chain in `reco_hilo` (`is_integer` first,
then `is_float`), with the value `std::stoi` / `std::stof` gives in the branch
taken. -/
inductive Reading where
  | Integer (value : Int)
  | Float (value : FloatVal)
  | Invalid
deriving DecidableEq

/-- The branch of `reco_hilo` that `line` takes and the value computed there. -/
def classify (line : String) : Reading :=
  if is_integer line then
    match stoi line with
    | .ok (value, _) => .Integer value
    | .error _ => .Invalid
  else if is_float line then
    match stof line with
    | .ok (value, _) => .Float value
    | .error _ => .Invalid
  else .Invalid

/-- One return of `read(pipeFd, buffer, sizeof(buffer) - 1)`: the returned
count and the bytes of `buffer` after the call. -/
structure ReadResult where
  bytesRead : Int
  buffer : List Char
deriving DecidableEq

/-- The string `line` after `buffer[bytesRead] = 0; line = buffer;`: the bytes
read, up to the first NUL byte. -/
def ReadResult.line (r : ReadResult) : String :=
  String.mk ((r.buffer.take r.bytesRead.toNat).takeWhile (fun c => c.toNat != 0))

/-- The observable calls of the collector thread, in program order. An `add`
is the blocking call `Buffer::add` on the named buffer. -/
inductive Action where
  | addPh (data : String)
  | addTemp (data : String)
  | cerr (msg : String)
  | cout (msg : String)
  | sleep (seconds : Nat)
  | unlink
  | close
  | semPost
deriving DecidableEq

/-- How far a thread got on the input given to it: it returned, it waits for
more input (in `read` or in `Buffer::remove`), or an exception left it. -/
inductive Status where
  | returned
  | waiting
  | thrown (err : StoError)
deriving DecidableEq

/-- The calls a thread made and how it ended. -/
structure Trace where
  actions : List Action
  status : Status
deriving DecidableEq

/-- The message for a negative reading. -/
def msgNegative : String := "Error: valor negativo recibido del sensor"

/-- The message for a reading that is no number. -/
def msgInvalid : String := "Error: valor no válido recibido del sensor"

/-- The body of the loop of `reco_hilo` after `line` has been set
(monitor.cpp lines 143 to 159). -/
def processLine (line : String) : Except StoError (List Action) :=
  if is_integer line then
    match stoi line with
    | .ok (value, _) =>
      if 0 ≤ value then .ok [.addTemp line] else .ok [.cerr msgNegative]
    | .error err => .error err
  else if is_float line then
    match stof line with
    | .ok (value, _) =>
      if value.geZero then .ok [.addPh line] else .ok [.cerr msgNegative]
    | .error err => .error err
  else .ok [.cerr msgInvalid]

/-- The calls made when `read` returns `0` or less (lines 128 to 137). -/
def shutdownActions : List Action :=
  [.sleep 10, .addPh "-1", .addTemp "-1", .unlink,
   .cout "Finalizado el procesamiento de mediciones"]

/-- The `while (true)` loop of `reco_hilo` on the successive results of
`read`. When the list is used up the thread is waiting in `read`. -/
def reco_loop : List ReadResult → Trace
  | [] => { actions := [], status := .waiting }
  | r :: rest =>
    if r.bytesRead ≤ 0 then { actions := shutdownActions, status := .returned }
    else
      match processLine r.line with
      | .error err => { actions := [], status := .thrown err }
      | .ok acts =>
        { actions := acts ++ (reco_loop rest).actions, status := (reco_loop rest).status }

/-- The thread function `reco_hilo`: `pipeFd` is what `open` returned. -/
def reco_hilo (pipeFd : Int) (pipeName : String) (reads : List ReadResult) : Trace :=
  if pipeFd < 0 then
    { actions := [.semPost, .cerr ("Error: No se pudo abrir el pipe: " ++ pipeName)],
      status := .returned }
  else
    match (reco_loop reads).status with
    | .returned => { actions := (reco_loop reads).actions ++ [.close], status := .returned }
    | st => { actions := (reco_loop reads).actions, status := st }

/-- The tokens of the calls `bufferPh->add`, in order. -/
def phAdds : List Action → List String
  | [] => []
  | .addPh data :: rest => data :: phAdds rest
  | _ :: rest => phAdds rest

/-- The tokens of the calls `bufferTemp->add`, in order. -/
def tempAdds : List Action → List String
  | [] => []
  | .addTemp data :: rest => data :: tempAdds rest
  | _ :: rest => tempAdds rest

/-- The two buffers created in `main`. -/
structure Queues where
  bufferPh : Buffer
  bufferTemp : Buffer
deriving DecidableEq

/-- The effect of one call of the collector on the two buffers; `none` when
the call is an `add` that has to wait. -/
def Queues.perform (q : Queues) : Action → Option Queues
  | .addPh data =>
    match q.bufferPh.add data with
    | some b => some { q with bufferPh := b }
    | none => none
  | .addTemp data =>
    match q.bufferTemp.add data with
    | some b => some { q with bufferTemp := b }
    | none => none
  | _ => some q

/-- The comparison `value >= c` of a `float` with the number `c`. -/
def FloatVal.geNat : FloatVal → Nat → Bool
  | .finite neg m e, c =>
    if 0 ≤ e then decide ((c : Int) ≤ signed neg m * 2 ^ e.toNat)
    else decide ((c : Int) * 2 ^ (-e).toNat ≤ signed neg m)
  | .inf neg, _ => !neg
  | .nan, _ => false

/-- The comparison `value <= c` of a `float` with the number `c`. -/
def FloatVal.leNat : FloatVal → Nat → Bool
  | .finite neg m e, c =>
    if 0 ≤ e then decide (signed neg m * 2 ^ e.toNat ≤ (c : Int))
    else decide (signed neg m ≤ (c : Int) * 2 ^ (-e).toNat)
  | .inf neg, _ => neg
  | .nan, _ => false

/-- The test `value >= 8.0 || value <= 6.0` of `pH_hilo`. -/
def pHAlert (value : FloatVal) : Bool := value.geNat 8 || value.leNat 6

/-- The test `value >= 31.6 || value <= 20` of `temperatura_hilo`: the `int`
is compared as a `double`, and the `double` nearest to `31.6` is
`4447304632028365 / 2 ^ 47`. -/
def tempAlert (value : Int) : Bool :=
  decide (4447304632028365 ≤ value * 2 ^ 47) || decide (value ≤ 20)

/-- What a consumer thread did: the lines written to its file (the value and
the result of `getCurrentTime`), the values it reported on `cout`, the number
of completed calls of `remove`, and how it ended. -/
structure Consumed (V : Type) where
  sink : List (V × String)
  alerts : List V
  taken : Nat
  status : Status
deriving DecidableEq

/-- The loop of `pH_hilo` (lines 207 to 213) on the tokens `remove` returns,
in order; `clock k` is the result of the next call of `getCurrentTime`. When
the list is used up the thread is waiting in `remove`. -/
def pH_loop (clock : Nat → String) : Nat → List String → Consumed FloatVal
  | _, [] => { sink := [], alerts := [], taken := 0, status := .waiting }
  | k, data :: rest =>
    if data = "-1" then { sink := [], alerts := [], taken := 1, status := .returned }
    else
      match stof data with
      | .error err => { sink := [], alerts := [], taken := 1, status := .thrown err }
      | .ok (value, _) =>
        { sink := (value, clock k) :: (pH_loop clock (k + 1) rest).sink,
          alerts := if pHAlert value then value :: (pH_loop clock (k + 1) rest).alerts
                    else (pH_loop clock (k + 1) rest).alerts,
          taken := (pH_loop clock (k + 1) rest).taken + 1,
          status := (pH_loop clock (k + 1) rest).status }

/-- The loop of `temperatura_hilo` (lines 259 to 265), as `pH_loop`. -/
def temperatura_loop (clock : Nat → String) : Nat → List String → Consumed Int
  | _, [] => { sink := [], alerts := [], taken := 0, status := .waiting }
  | k, data :: rest =>
    if data = "-1" then { sink := [], alerts := [], taken := 1, status := .returned }
    else
      match stoi data with
      | .error err => { sink := [], alerts := [], taken := 1, status := .thrown err }
      | .ok (value, _) =>
        { sink := (value, clock k) :: (temperatura_loop clock (k + 1) rest).sink,
          alerts := if tempAlert value then value :: (temperatura_loop clock (k + 1) rest).alerts
                    else (temperatura_loop clock (k + 1) rest).alerts,
          taken := (temperatura_loop clock (k + 1) rest).taken + 1,
          status := (temperatura_loop clock (k + 1) rest).status }

/-- The thread function `pH_hilo`: it returns at once when the file could not
be opened or the semaphore is already posted, otherwise it runs the loop. -/
def pH_hilo (fileOpen : Bool) (semaphore_value : Int) (clock : Nat → String)
    (tokens : List String) : Consumed FloatVal :=
  if !fileOpen then { sink := [], alerts := [], taken := 0, status := .returned }
  else if 0 < semaphore_value then { sink := [], alerts := [], taken := 0, status := .returned }
  else pH_loop clock 0 tokens

/-- The thread function `temperatura_hilo`, as `pH_hilo`. -/
def temperatura_hilo (fileOpen : Bool) (semaphore_value : Int) (clock : Nat → String)
    (tokens : List String) : Consumed Int :=
  if !fileOpen then { sink := [], alerts := [], taken := 0, status := .returned }
  else if 0 < semaphore_value then { sink := [], alerts := [], taken := 0, status := .returned }
  else temperatura_loop clock 0 tokens

/-- A sequence of calls of the collector on the two buffers. -/
def Queues.performAll (q : Queues) : List Action → Option Queues
  | [] => some q
  | a :: rest =>
    match q.perform a with
    | some q' => q'.performAll rest
    | none => none

/-- Whether the collector passes `line` on to the temperature buffer. -/
def routesTemp (line : String) : Bool :=
  match classify line with
  | .Integer value => decide (0 ≤ value)
  | _ => false

/-- Whether the collector passes `line` on to the pH buffer. -/
def routesPh (line : String) : Bool :=
  match classify line with
  | .Float value => value.geZero
  | _ => false

/-- The rational number a finite `float` stands for. -/
def FloatVal.toRat : FloatVal → Option ℚ
  | .finite neg m e => some ((signed neg m : ℚ) * 2 ^ e)
  | _ => none

/-- The text `s` without the white space at its two ends. -/
def trim (s : List Char) : List Char :=
  ((s.dropWhile isspace).reverse.dropWhile isspace).reverse

/-- The classifier as the specification words it: the token is trimmed; if
all of it is an integer (an optional sign and digits) it is `Integer`; else if
all of it is read as a floating-point number it is `Float`; else `Invalid`. -/
def spec_classify (line : String) : Reading :=
  let t := trim line.data
  let sr := takeSign t
  if !sr.2.isEmpty && sr.2.all isdigit then .Integer (signed sr.1 (digitsValue 10 sr.2))
  else
    match stof (String.mk t) with
    | .ok (value, pos) => if pos = t.length then .Float value else .Invalid
    | .error _ => .Invalid

/-- The tokens `is_integer` accepts, with their value: white space, then an
optional sign, then one or more decimal digits and nothing after them, the
value being an `int`. -/
def IntegerToken (s : List Char) (v : Int) : Prop :=
  ∃ ws sgn ds : List Char, s = ws ++ (sgn ++ ds) ∧ (∀ c ∈ ws, isspace c = true) ∧
    (sgn = [] ∨ sgn = ['+'] ∨ sgn = ['-']) ∧ ds ≠ [] ∧ (∀ c ∈ ds, isdigit c = true) ∧
    v = signed (decide (sgn = ['-'])) (digitsValue 10 ds) ∧
    -2147483648 ≤ v ∧ v ≤ 2147483647

/-- The arguments of the `add` calls of a sequence of calls, in order. -/
def addArgs : List Op → List String
  | [] => []
  | .add data :: ops => data :: addArgs ops
  | .remove :: ops => addArgs ops

/-- The number of `remove` calls of a sequence of calls. -/
def removeCount : List Op → Nat
  | [] => 0
  | .add _ :: ops => removeCount ops
  | .remove :: ops => removeCount ops + 1

/-- The invariant of every run: the length bound, the size field and the
FIFO relation between the history and the queue. -/
def Run.Inv (size : Int) (r : Run) : Prop :=
  r.buf.size = size ∧ r.buf.dataQueue.length ≤ toSizeT size ∧
    r.added = r.removed ++ r.buf.dataQueue

/-! ## sensor.cpp -/

/-- The bytes of one `write(pipeFd, linea.c_str(), linea.size() + 1)` of
the emitter: the line and the NUL byte that ends it. -/
def sensor_write (linea : String) : List Char := linea.data ++ [Char.ofNat 0]

/-! ## main: the three threads on the two buffers -/

/-- The capacity `main` gives to both buffers: `atoi` of the argument of the
option `-b`, or `0`, the initial value of `bufferSize`, when the option is not
given. -/
def main_bufferSize (b : Option Int) : Int :=
  match b with
  | some n => n
  | none => 0

/-- The three threads `main` creates. -/
inductive Thread where
  | collector
  | pH
  | temperatura
deriving DecidableEq

/-- The state of the process once the pipe and the two files are open: the
two buffers, the calls the collector has still to make, and the tokens
`remove` has returned to each consumer so far. What a consumer has done is
its loop on the tokens it has taken. -/
structure System where
  queues : Queues
  pending : List Action
  takenPh : List String
  takenTemp : List String
deriving DecidableEq

/-- The state after `main` has created the buffers and the threads; `acts`
are the calls of the collector. -/
def System.init (bufferSize : Int) (acts : List Action) : System :=
  { queues := { bufferPh := Buffer.init bufferSize, bufferTemp := Buffer.init bufferSize },
    pending := acts, takenPh := [], takenTemp := [] }

/-- One move of a thread: the next call of the collector, or the `remove`
a consumer is in. `none` when the thread cannot move: it has returned or
ended, or its call has to wait. (Whether a consumer is still in its loop does
not depend on the clock.) -/
def System.step (s : System) : Thread → Option System
  | .collector =>
    match s.pending with
    | [] => none
    | a :: rest =>
      match s.queues.perform a with
      | some q => some { s with queues := q, pending := rest }
      | none => none
  | .pH =>
    match (pH_loop (fun _ => "") 0 s.takenPh).status with
    | .waiting =>
      match s.queues.bufferPh.remove with
      | some (data, b) =>
        some { s with queues := { s.queues with bufferPh := b },
                      takenPh := s.takenPh ++ [data] }
      | none => none
    | _ => none
  | .temperatura =>
    match (temperatura_loop (fun _ => "") 0 s.takenTemp).status with
    | .waiting =>
      match s.queues.bufferTemp.remove with
      | some (data, b) =>
        some { s with queues := { s.queues with bufferTemp := b },
                      takenTemp := s.takenTemp ++ [data] }
      | none => none
    | _ => none

/-- The state after the scheduler has picked the threads of `sched` in turn;
a thread that cannot move when picked leaves the state as it is. -/
def System.run (s : System) : List Thread → System
  | [] => s
  | th :: rest =>
    match s.step th with
    | some s' => s'.run rest
    | none => s.run rest

/-- A bound on the moves still possible: two for each call the collector has
to make and one for each token in a buffer. -/
def System.remaining (s : System) : Nat :=
  2 * s.pending.length + s.queues.bufferPh.dataQueue.length
    + s.queues.bufferTemp.dataQueue.length

/-- The invariant of the states reached from `System.init bufferSize acts`:
the calls made and the calls pending are `acts`, and the tokens added to each
buffer are those taken from it followed by its content. -/
def System.Inv (bufferSize : Int) (acts : List Action) (s : System) : Prop :=
  ∃ done : List Action, acts = done ++ s.pending ∧
    phAdds done = s.takenPh ++ s.queues.bufferPh.dataQueue ∧
    tempAdds done = s.takenTemp ++ s.queues.bufferTemp.dataQueue ∧
    s.queues.bufferPh.size = bufferSize ∧ s.queues.bufferTemp.size = bufferSize

/-- The reads of the end-to-end scenario: the emitter writes the four lines,
each read returns one write, then `read` returns `0`. -/
def scenarioReads : List ReadResult :=
  [⟨4, sensor_write "7.0"⟩, ⟨3, sensor_write "25"⟩, ⟨4, sensor_write "9.5"⟩,
   ⟨3, sensor_write "-3"⟩, ⟨0, []⟩]

/-! ### Lemmas on the buffer -/

theorem toSizeT_le {n : Int} (h : 0 ≤ n) : (toSizeT n : Int) ≤ n := by
  unfold toSizeT
  omega

theorem toSizeT_of_lt {n : Int} (h0 : 0 ≤ n) (h : n < 2 ^ 64) : (toSizeT n : Int) = n := by
  unfold toSizeT
  omega

theorem Run.inv_start (size : Int) : (Run.start size).Inv size := by
  simp [Run.Inv, Run.start, Buffer.init]

theorem Run.inv_step {size : Int} {r r' : Run} {op : Op}
    (hr : r.Inv size) (h : r.step op = some r') : r'.Inv size := by
  obtain ⟨hs, hl, hf⟩ := hr
  cases op with
  | add data =>
    simp only [Run.step, Buffer.add] at h
    by_cases hfull : toSizeT r.buf.size ≤ r.buf.dataQueue.length
    · simp [hfull] at h
    · simp only [hfull, if_false, Option.some.injEq] at h
      subst h
      refine ⟨hs, ?_, ?_⟩
      · simp only [List.length_append, List.length_singleton]
        rw [hs] at hfull
        omega
      · simp [hf]
  | remove =>
    simp only [Run.step, Buffer.remove] at h
    cases hq : r.buf.dataQueue with
    | nil => simp [hq] at h
    | cons d rest =>
      simp [hq] at h
      subst h
      refine ⟨hs, ?_, ?_⟩
      · simp only
        rw [hq] at hl
        simp only [List.length_cons] at hl
        omega
      · simp [hf, hq]

theorem Run.inv_exec {size : Int} (ops : List Op) : ∀ {r r' : Run},
    r.Inv size → r.exec ops = some r' → r'.Inv size := by
  induction ops with
  | nil =>
    intro r r' hr h
    simp [Run.exec] at h
    subst h
    exact hr
  | cons op ops ih =>
    intro r r' hr h
    simp only [Run.exec] at h
    cases hs : r.step op with
    | none => simp [hs] at h
    | some r1 =>
      simp only [hs] at h
      exact ih (Run.inv_step hr hs) h

theorem Run.history_step {r r' : Run} {op : Op} (h : r.step op = some r') :
    r'.added = r.added ++ addArgs [op] ∧
      r'.removed.length = r.removed.length + removeCount [op] := by
  cases op with
  | add data =>
    simp only [Run.step] at h
    cases hb : r.buf.add data with
    | none => simp [hb] at h
    | some b =>
      simp only [hb, Option.some.injEq] at h
      subst h
      simp [addArgs, removeCount]
  | remove =>
    simp only [Run.step] at h
    cases hb : r.buf.remove with
    | none => simp [hb] at h
    | some p =>
      obtain ⟨d, b⟩ := p
      simp only [hb, Option.some.injEq] at h
      subst h
      simp [addArgs, removeCount]

theorem addArgs_cons (op : Op) (ops : List Op) :
    addArgs (op :: ops) = addArgs [op] ++ addArgs ops := by
  cases op <;> simp [addArgs]

theorem removeCount_cons (op : Op) (ops : List Op) :
    removeCount (op :: ops) = removeCount [op] + removeCount ops := by
  cases op <;> simp [removeCount]
  omega

theorem Run.history_exec (ops : List Op) : ∀ {r r' : Run}, r.exec ops = some r' →
    r'.added = r.added ++ addArgs ops ∧
      r'.removed.length = r.removed.length + removeCount ops := by
  induction ops with
  | nil =>
    intro r r' h
    simp [Run.exec] at h
    subst h
    simp [addArgs, removeCount]
  | cons op ops ih =>
    intro r r' h
    simp only [Run.exec] at h
    cases hs : r.step op with
    | none => simp [hs] at h
    | some r1 =>
      simp only [hs] at h
      obtain ⟨h1, h2⟩ := Run.history_step hs
      obtain ⟨h3, h4⟩ := ih h
      rw [addArgs_cons, removeCount_cons, h3, h4, h1, h2]
      constructor
      · simp
      · omega

/-! ### Lemmas on the classifier and the collector -/

theorem is_integer_iff (str : String) :
    is_integer str = true ↔ ∃ v, stoi str = .ok (v, str.length) := by
  unfold is_integer
  cases h : stoi str with
  | error e => simp
  | ok p =>
    obtain ⟨v, pos⟩ := p
    simp only [beq_iff_eq, Except.ok.injEq, Prod.mk.injEq]
    constructor
    · intro hp
      exact ⟨v, rfl, hp⟩
    · rintro ⟨_, _, hp⟩
      exact hp

theorem is_float_iff (str : String) :
    is_float str = true ↔ ∃ v, stof str = .ok (v, str.length) := by
  unfold is_float
  cases h : stof str with
  | error e => simp
  | ok p =>
    obtain ⟨v, pos⟩ := p
    simp only [beq_iff_eq, Except.ok.injEq, Prod.mk.injEq]
    constructor
    · intro hp
      exact ⟨v, rfl, hp⟩
    · rintro ⟨_, _, hp⟩
      exact hp

/-- The three cases of `classify`, each with what `processLine` does in it. -/
theorem classify_cases (line : String) :
    (∃ v, is_integer line = true ∧ stoi line = .ok (v, line.length) ∧
        classify line = .Integer v ∧
        processLine line = .ok (if 0 ≤ v then [.addTemp line] else [.cerr msgNegative])) ∨
    (∃ v, is_integer line = false ∧ is_float line = true ∧
        stof line = .ok (v, line.length) ∧ classify line = .Float v ∧
        processLine line = .ok (if v.geZero then [.addPh line] else [.cerr msgNegative])) ∨
    (is_integer line = false ∧ is_float line = false ∧ classify line = .Invalid ∧
        processLine line = .ok [.cerr msgInvalid]) := by
  by_cases hi : is_integer line = true
  · obtain ⟨v, hv⟩ := (is_integer_iff line).mp hi
    left
    refine ⟨v, hi, hv, ?_, ?_⟩
    · simp [classify, hi, hv]
    · simp only [processLine, hi, hv, if_true]
      split <;> rfl
  · have hi' : is_integer line = false := by simpa using hi
    by_cases hf : is_float line = true
    · obtain ⟨v, hv⟩ := (is_float_iff line).mp hf
      right; left
      refine ⟨v, hi', hf, hv, ?_, ?_⟩
      · simp [classify, hi', hf, hv]
      · simp only [processLine, hi', hf, hv, if_true]
        by_cases hg : v.geZero = true <;> simp [hg]
    · have hf' : is_float line = false := by simpa using hf
      right; right
      refine ⟨hi', hf', ?_, ?_⟩
      · simp [classify, hi', hf']
      · simp [processLine, hi', hf']

theorem Queues.performAll_addTemp (q q' : Queues) (t : String) :
    q.performAll [.addTemp t] = some q' ↔
      q.bufferTemp.dataQueue.length < toSizeT q.bufferTemp.size ∧
      q' = { bufferPh := q.bufferPh,
             bufferTemp := { size := q.bufferTemp.size,
                             dataQueue := q.bufferTemp.dataQueue ++ [t] } } := by
  by_cases hfull : toSizeT q.bufferTemp.size ≤ q.bufferTemp.dataQueue.length
  · simp [Queues.performAll, Queues.perform, Buffer.add, hfull, Nat.not_lt.mpr hfull]
  · simp only [Queues.performAll, Queues.perform, Buffer.add, hfull, if_false,
      Option.some.injEq, Nat.lt_of_not_le hfull, true_and]
    exact eq_comm

theorem Queues.performAll_addPh (q q' : Queues) (t : String) :
    q.performAll [.addPh t] = some q' ↔
      q.bufferPh.dataQueue.length < toSizeT q.bufferPh.size ∧
      q' = { bufferPh := { size := q.bufferPh.size,
                           dataQueue := q.bufferPh.dataQueue ++ [t] },
             bufferTemp := q.bufferTemp } := by
  by_cases hfull : toSizeT q.bufferPh.size ≤ q.bufferPh.dataQueue.length
  · simp [Queues.performAll, Queues.perform, Buffer.add, hfull, Nat.not_lt.mpr hfull]
  · simp only [Queues.performAll, Queues.perform, Buffer.add, hfull, if_false,
      Option.some.injEq, Nat.lt_of_not_le hfull, true_and]
    exact eq_comm

theorem reco_loop_cons (r : ReadResult) (rest : List ReadResult) (h : 1 ≤ r.bytesRead)
    {acts : List Action} (ha : processLine r.line = .ok acts) :
    (reco_loop (r :: rest)).actions = acts ++ (reco_loop rest).actions ∧
      (reco_loop (r :: rest)).status = (reco_loop rest).status := by
  have h0 : ¬ r.bytesRead ≤ 0 := by omega
  simp [reco_loop, h0, ha]

theorem takeSign_spec (t : List Char) :
    ∃ sgn : List Char, (sgn = [] ∨ sgn = ['+'] ∨ sgn = ['-']) ∧ t = sgn ++ (takeSign t).2 ∧
      (takeSign t).1 = decide (sgn = ['-']) := by
  cases t with
  | nil => exact ⟨[], Or.inl rfl, rfl, rfl⟩
  | cons c cs =>
    by_cases h1 : c = '-'
    · subst h1
      exact ⟨['-'], Or.inr (Or.inr rfl), by simp [takeSign], by simp [takeSign]⟩
    · by_cases h2 : c = '+'
      · subst h2
        exact ⟨['+'], Or.inr (Or.inl rfl), by simp [takeSign], by simp [takeSign]⟩
      · exact ⟨[], Or.inl rfl, by simp [takeSign, h1, h2], by simp [takeSign, h1, h2]⟩

theorem isdigit_not_sign {c : Char} (h : isdigit c = true) :
    c ≠ '-' ∧ c ≠ '+' ∧ isspace c = false := by
  refine ⟨?_, ?_, ?_⟩
  · rintro rfl
    exact absurd h (by decide)
  · rintro rfl
    exact absurd h (by decide)
  · simp only [isdigit, Bool.and_eq_true, decide_eq_true_eq] at h
    simp only [isspace, Bool.or_eq_false_iff, beq_eq_false_iff_ne, ne_eq,
      Bool.and_eq_false_iff, decide_eq_false_iff_not]
    omega

theorem takeSign_digits (sgn ds : List Char) (hs : sgn = [] ∨ sgn = ['+'] ∨ sgn = ['-'])
    (hne : ds ≠ []) (hd : ∀ c ∈ ds, isdigit c = true) :
    takeSign (sgn ++ ds) = (decide (sgn = ['-']), ds) := by
  rcases hs with rfl | rfl | rfl
  · cases ds with
    | nil => exact absurd rfl hne
    | cons c cs =>
      obtain ⟨h1, h2, _⟩ := isdigit_not_sign (hd c (List.mem_cons_self _ _))
      simp [takeSign, h1, h2]
  · simp [takeSign]
  · simp [takeSign]

theorem dropWhile_isspace_append (ws rest : List Char) (hw : ∀ c ∈ ws, isspace c = true)
    (hr : ∀ c ∈ rest.head?, isspace c = false) :
    (ws ++ rest).dropWhile isspace = rest := by
  induction ws with
  | nil =>
    cases rest with
    | nil => rfl
    | cons c cs =>
      have := hr c (by simp)
      simp [List.dropWhile, this]
  | cons w ws ih =>
    have hw1 := hw w (List.mem_cons_self _ _)
    simp only [List.cons_append, List.dropWhile_cons, hw1, if_true]
    exact ih (fun c hc => hw c (List.mem_cons_of_mem _ hc))

/-- What `is_integer` accepts: `std::stoi` reads the whole string exactly on
the tokens of the form `IntegerToken`. -/
theorem stoi_ok_iff (str : String) (v : Int) :
    stoi str = .ok (v, str.length) ↔ IntegerToken str.data v := by
  constructor
  · intro h
    obtain ⟨sgn, hsgn, hsplit, hneg⟩ := takeSign_spec (str.data.dropWhile isspace)
    simp only [stoi] at h
    split at h
    · cases h
    · rename_i hds
      split at h
      · cases h
      · rename_i hrange
        simp only [Except.ok.injEq, Prod.mk.injEq] at h
        obtain ⟨hv, hpos⟩ := h
        have hlen1 : (takeSign (str.data.dropWhile isspace)).2.length
            ≤ (str.data.dropWhile isspace).length := by
          conv_rhs => rw [hsplit]
          simp
        have hlen2 : (str.data.dropWhile isspace).length ≤ str.data.length :=
          (List.dropWhile_sublist _).length_le
        have hlen3 : ((takeSign (str.data.dropWhile isspace)).2.takeWhile isdigit).length
            ≤ (takeSign (str.data.dropWhile isspace)).2.length :=
          (List.takeWhile_sublist _).length_le
        have hself : (takeSign (str.data.dropWhile isspace)).2.takeWhile isdigit
            = (takeSign (str.data.dropWhile isspace)).2 := by
          apply (List.takeWhile_sublist _).eq_of_length
          have : str.length = str.data.length := rfl
          omega
        refine ⟨str.data.takeWhile isspace, sgn,
          (takeSign (str.data.dropWhile isspace)).2, ?_, ?_, hsgn, ?_, ?_, ?_, ?_, ?_⟩
        · rw [← hsplit, List.takeWhile_append_dropWhile]
        · intro c hc
          exact (List.mem_takeWhile_imp hc)
        · intro hnil
          rw [hself, hnil] at hds
          simp at hds
        · intro c hc
          rw [← hself] at hc
          exact List.mem_takeWhile_imp hc
        · rw [← hv, hself, hneg]
        · rw [← hv]
          omega
        · rw [← hv]
          omega
  · rintro ⟨ws, sgn, ds, hs, hws, hsgn, hne, hds, hv, hlo, hhi⟩
    have hhead : ∀ c ∈ (sgn ++ ds).head?, isspace c = false := by
      intro c hc
      rcases hsgn with rfl | rfl | rfl
      · cases ds with
        | nil => exact absurd rfl hne
        | cons d ds' =>
          simp only [List.nil_append, List.head?_cons, Option.mem_def, Option.some.injEq] at hc
          subst hc
          exact (isdigit_not_sign (hds _ (List.mem_cons_self _ _))).2.2
      · simp only [List.singleton_append, List.head?_cons, Option.mem_def,
          Option.some.injEq] at hc
        subst hc
        decide
      · simp only [List.singleton_append, List.head?_cons, Option.mem_def,
          Option.some.injEq] at hc
        subst hc
        decide
    have hdrop : str.data.dropWhile isspace = sgn ++ ds := by
      rw [hs]
      exact dropWhile_isspace_append ws _ hws hhead
    have hself : ds.takeWhile isdigit = ds := List.takeWhile_eq_self_iff.mpr hds
    have hemp : ds.isEmpty = false := by
      cases ds with
      | nil => exact absurd rfl hne
      | cons _ _ => rfl
    have hlen : str.length = str.data.length := rfl
    have hlen' : str.data.length = ws.length + (sgn.length + ds.length) := by
      rw [hs]
      simp
    simp only [stoi, hdrop, takeSign_digits sgn ds hsgn hne hds, hself, hemp]
    rw [← hv]
    have hr : ¬ (v < -2147483648 ∨ 2147483647 < v) := by omega
    simp only [hr, if_false, Bool.false_eq_true]
    congr 2
    omega

theorem phAdds_append (a b : List Action) : phAdds (a ++ b) = phAdds a ++ phAdds b := by
  induction a with
  | nil => rfl
  | cons x a ih => cases x <;> simp [phAdds, ih]

theorem tempAdds_append (a b : List Action) :
    tempAdds (a ++ b) = tempAdds a ++ tempAdds b := by
  induction a with
  | nil => rfl
  | cons x a ih => cases x <;> simp [tempAdds, ih]

/-- The `add` calls of one pass of the loop body, by the routing tests. -/
theorem processLine_adds (line : String) :
    ∃ acts, processLine line = .ok acts ∧
      phAdds acts = (if routesPh line then [line] else []) ∧
      tempAdds acts = (if routesTemp line then [line] else []) := by
  rcases classify_cases line with ⟨v, _, _, hc, hp⟩ | ⟨v, _, _, _, hc, hp⟩ | ⟨_, _, hc, hp⟩
  · refine ⟨_, hp, ?_, ?_⟩
    · by_cases hv : 0 ≤ v <;> simp [routesPh, hc, hv, phAdds]
    · by_cases hv : 0 ≤ v <;> simp [routesTemp, hc, hv, tempAdds]
  · refine ⟨_, hp, ?_, ?_⟩
    · by_cases hv : v.geZero = true <;> simp [routesPh, hc, hv, phAdds]
    · by_cases hv : v.geZero = true <;> simp [routesTemp, hc, hv, tempAdds]
  · exact ⟨_, hp, by simp [routesPh, hc, phAdds], by simp [routesTemp, hc, tempAdds]⟩

theorem routesPh_spec {t : String} (h : routesPh t = true) :
    t ≠ "-1" ∧ ∃ v, stof t = .ok (v, t.length) ∧ v.geZero = true := by
  constructor
  · rintro rfl
    exact absurd h (by decide)
  · rcases classify_cases t with ⟨v, _, _, hc, _⟩ | ⟨v, _, _, hs, hc, _⟩ | ⟨_, _, hc, _⟩
    · simp [routesPh, hc] at h
    · exact ⟨v, hs, by simpa [routesPh, hc] using h⟩
    · simp [routesPh, hc] at h

theorem routesTemp_spec {t : String} (h : routesTemp t = true) :
    t ≠ "-1" ∧ ∃ v, stoi t = .ok (v, t.length) ∧ 0 ≤ v := by
  constructor
  · rintro rfl
    exact absurd h (by decide)
  · rcases classify_cases t with ⟨v, _, hs, hc, _⟩ | ⟨v, _, _, _, hc, _⟩ | ⟨_, _, hc, _⟩
    · exact ⟨v, hs, by simpa [routesTemp, hc] using h⟩
    · simp [routesTemp, hc] at h
    · simp [routesTemp, hc] at h

theorem routesPh_parse {t : String} (h : routesPh t = true) :
    t ≠ "-1" ∧ ∃ v pos, stof t = .ok (v, pos) :=
  ⟨(routesPh_spec h).1, (routesPh_spec h).2.choose, _, (routesPh_spec h).2.choose_spec.1⟩

theorem routesTemp_parse {t : String} (h : routesTemp t = true) :
    t ≠ "-1" ∧ ∃ v pos, stoi t = .ok (v, pos) :=
  ⟨(routesTemp_spec h).1, (routesTemp_spec h).2.choose, _,
    (routesTemp_spec h).2.choose_spec.1⟩

/-- The loop of the collector on reads that all returned bytes, followed by
any further reads. -/
theorem reco_loop_append (pre tail : List ReadResult) (hpre : ∀ x ∈ pre, 1 ≤ x.bytesRead) :
    (reco_loop (pre ++ tail)).actions = (reco_loop pre).actions ++ (reco_loop tail).actions ∧
      (reco_loop (pre ++ tail)).status = (reco_loop tail).status ∧
      phAdds (reco_loop pre).actions = (pre.map ReadResult.line).filter routesPh ∧
      tempAdds (reco_loop pre).actions = (pre.map ReadResult.line).filter routesTemp := by
  induction pre with
  | nil => simp [reco_loop, phAdds, tempAdds]
  | cons r pre ih =>
    have hr : 1 ≤ r.bytesRead := hpre r (List.mem_cons_self _ _)
    obtain ⟨ih1, ih2, ih3, ih4⟩ := ih (fun x hx => hpre x (List.mem_cons_of_mem _ hx))
    obtain ⟨acts, ha, hph, htemp⟩ := processLine_adds r.line
    obtain ⟨h1, h2⟩ := reco_loop_cons r (pre ++ tail) hr ha
    obtain ⟨h3, _⟩ := reco_loop_cons r pre hr ha
    refine ⟨?_, ?_, ?_, ?_⟩
    · rw [List.cons_append, h1, h3, ih1, List.append_assoc]
    · rw [List.cons_append, h2, ih2]
    · rw [h3, phAdds_append, hph, ih3]
      by_cases hrt : routesPh r.line = true <;> simp [List.filter_cons, hrt]
    · rw [h3, tempAdds_append, htemp, ih4]
      by_cases hrt : routesTemp r.line = true <;> simp [List.filter_cons, hrt]

/-- Every token the loop of the collector passes to a buffer is the sentinel
or a routed reading, and the loop raises no exception. -/
theorem reco_loop_adds (reads : List ReadResult) :
    (∀ t ∈ phAdds (reco_loop reads).actions, t = "-1" ∨ routesPh t = true) ∧
      (∀ t ∈ tempAdds (reco_loop reads).actions, t = "-1" ∨ routesTemp t = true) ∧
      ∀ err, (reco_loop reads).status ≠ .thrown err := by
  induction reads with
  | nil => simp [reco_loop, phAdds, tempAdds]
  | cons r rest ih =>
    by_cases hr : r.bytesRead ≤ 0
    · simp [reco_loop, hr, shutdownActions, phAdds, tempAdds]
    · obtain ⟨acts, ha, hph, htemp⟩ := processLine_adds r.line
      obtain ⟨h1, h2⟩ := reco_loop_cons r rest (by omega) ha
      obtain ⟨ih1, ih2, ih3⟩ := ih
      refine ⟨?_, ?_, ?_⟩
      · intro t ht
        rw [h1, phAdds_append, hph, List.mem_append] at ht
        rcases ht with ht | ht
        · by_cases hrt : routesPh r.line = true
          · simp only [hrt, if_true, List.mem_singleton] at ht
            subst ht
            exact Or.inr hrt
          · simp [hrt] at ht
        · exact ih1 t ht
      · intro t ht
        rw [h1, tempAdds_append, htemp, List.mem_append] at ht
        rcases ht with ht | ht
        · by_cases hrt : routesTemp r.line = true
          · simp only [hrt, if_true, List.mem_singleton] at ht
            subst ht
            exact Or.inr hrt
          · simp [hrt] at ht
        · exact ih2 t ht
      · intro err
        rw [h2]
        exact ih3 err

/-- The `add` calls of `reco_hilo` are those of its loop, or none when the
pipe could not be opened. -/
theorem reco_hilo_adds (pipeFd : Int) (pipeName : String) (reads : List ReadResult) :
    phAdds (reco_hilo pipeFd pipeName reads).actions
        = (if pipeFd < 0 then [] else phAdds (reco_loop reads).actions) ∧
      tempAdds (reco_hilo pipeFd pipeName reads).actions
        = (if pipeFd < 0 then [] else tempAdds (reco_loop reads).actions) := by
  by_cases h : pipeFd < 0
  · simp [reco_hilo, h, phAdds, tempAdds]
  · simp only [reco_hilo, h, if_false]
    cases hs : (reco_loop reads).status <;>
      simp [phAdds_append, tempAdds_append, phAdds, tempAdds]

/-- The collector running on its own against buffers with room for all its
`add` calls: every call completes and each buffer ends with its tokens
appended in order. -/
theorem Queues.performAll_of_room (acts : List Action) : ∀ q : Queues,
    q.bufferPh.dataQueue.length + (phAdds acts).length ≤ toSizeT q.bufferPh.size →
    q.bufferTemp.dataQueue.length + (tempAdds acts).length ≤ toSizeT q.bufferTemp.size →
    q.performAll acts = some
      { bufferPh := { size := q.bufferPh.size,
                      dataQueue := q.bufferPh.dataQueue ++ phAdds acts },
        bufferTemp := { size := q.bufferTemp.size,
                        dataQueue := q.bufferTemp.dataQueue ++ tempAdds acts } } := by
  induction acts with
  | nil =>
    intro q _ _
    simp [Queues.performAll, phAdds, tempAdds]
  | cons a acts ih =>
    intro q h1 h2
    cases a with
    | addPh data =>
      simp only [phAdds, List.length_cons] at h1
      simp only [tempAdds] at h2
      have hfull : ¬ toSizeT q.bufferPh.size ≤ q.bufferPh.dataQueue.length := by omega
      simp only [Queues.performAll, Queues.perform, Buffer.add, hfull, if_false]
      rw [ih]
      · simp [phAdds, tempAdds]
      · simp only [List.length_append, List.length_singleton]
        omega
      · exact h2
    | addTemp data =>
      simp only [tempAdds, List.length_cons] at h2
      simp only [phAdds] at h1
      have hfull : ¬ toSizeT q.bufferTemp.size ≤ q.bufferTemp.dataQueue.length := by omega
      simp only [Queues.performAll, Queues.perform, Buffer.add, hfull, if_false]
      rw [ih]
      · simp [phAdds, tempAdds]
      · exact h1
      · simp only [List.length_append, List.length_singleton]
        omega
    | cerr msg => simpa [Queues.performAll, Queues.perform, phAdds, tempAdds] using ih q h1 h2
    | cout msg => simpa [Queues.performAll, Queues.perform, phAdds, tempAdds] using ih q h1 h2
    | sleep n => simpa [Queues.performAll, Queues.perform, phAdds, tempAdds] using ih q h1 h2
    | unlink => simpa [Queues.performAll, Queues.perform, phAdds, tempAdds] using ih q h1 h2
    | close => simpa [Queues.performAll, Queues.perform, phAdds, tempAdds] using ih q h1 h2
    | semPost => simpa [Queues.performAll, Queues.perform, phAdds, tempAdds] using ih q h1 h2

/-! ### Lemmas on the consumers -/

theorem pH_loop_cons (clock : Nat → String) (k : Nat) (t : String) (rest : List String)
    {v : FloatVal} {pos : Nat} (ht : t ≠ "-1") (hs : stof t = .ok (v, pos)) :
    pH_loop clock k (t :: rest) =
      { sink := (v, clock k) :: (pH_loop clock (k + 1) rest).sink,
        alerts := if pHAlert v then v :: (pH_loop clock (k + 1) rest).alerts
                  else (pH_loop clock (k + 1) rest).alerts,
        taken := (pH_loop clock (k + 1) rest).taken + 1,
        status := (pH_loop clock (k + 1) rest).status } := by
  simp [pH_loop, ht, hs]

theorem temperatura_loop_cons (clock : Nat → String) (k : Nat) (t : String)
    (rest : List String) {v : Int} {pos : Nat} (ht : t ≠ "-1") (hs : stoi t = .ok (v, pos)) :
    temperatura_loop clock k (t :: rest) =
      { sink := (v, clock k) :: (temperatura_loop clock (k + 1) rest).sink,
        alerts := if tempAlert v then v :: (temperatura_loop clock (k + 1) rest).alerts
                  else (temperatura_loop clock (k + 1) rest).alerts,
        taken := (temperatura_loop clock (k + 1) rest).taken + 1,
        status := (temperatura_loop clock (k + 1) rest).status } := by
  simp [temperatura_loop, ht, hs]

/-- The pH loop on tokens that are not the sentinel and that `std::stof`
accepts, followed by any further tokens: it takes them one by one, writes one
line for each, and goes on with the rest. -/
theorem pH_loop_append (clock : Nat → String) (pre : List String)
    (hpre : ∀ t ∈ pre, t ≠ "-1" ∧ ∃ v pos, stof t = .ok (v, pos)) :
    ∀ (k : Nat) (tail : List String),
    (pH_loop clock k (pre ++ tail)).status = (pH_loop clock (k + pre.length) tail).status ∧
      (pH_loop clock k (pre ++ tail)).taken
        = pre.length + (pH_loop clock (k + pre.length) tail).taken ∧
      (pH_loop clock k (pre ++ tail)).sink.length
        = pre.length + (pH_loop clock (k + pre.length) tail).sink.length ∧
      (∀ i t, pre[i]? = some t → ∃ v pos, stof t = .ok (v, pos) ∧
        (pH_loop clock k (pre ++ tail)).sink[i]? = some (v, clock (k + i))) ∧
      (pH_loop clock k (pre ++ tail)).alerts
        = ((((pH_loop clock k (pre ++ tail)).sink.take pre.length).map Prod.fst).filter pHAlert)
          ++ (pH_loop clock (k + pre.length) tail).alerts := by
  induction pre with
  | nil =>
    intro k tail
    simp
  | cons t pre ih =>
    intro k tail
    obtain ⟨hne, v, pos0, hs⟩ := hpre t (List.mem_cons_self _ _)
    obtain ⟨ih1, ih2, ih3, ih4, ih5⟩ :=
      ih (fun x hx => hpre x (List.mem_cons_of_mem _ hx)) (k + 1) tail
    have hk : k + (t :: pre).length = k + 1 + pre.length := by
      simp only [List.length_cons]
      omega
    rw [List.cons_append, pH_loop_cons clock k t (pre ++ tail) hne hs, hk]
    refine ⟨ih1, ?_, ?_, ?_, ?_⟩
    · simp only [ih2, List.length_cons]
      omega
    · simp only [List.length_cons, ih3]
      omega
    · intro i u hu
      cases i with
      | zero =>
        simp only [List.getElem?_cons_zero, Option.some.injEq] at hu
        subst hu
        exact ⟨v, _, hs, by simp⟩
      | succ j =>
        simp only [List.getElem?_cons_succ] at hu
        obtain ⟨w, pos, hw, hj⟩ := ih4 j u hu
        refine ⟨w, pos, hw, ?_⟩
        simp only [List.getElem?_cons_succ, hj]
        congr 3
        omega
    · simp only [List.length_cons, List.take_succ_cons, List.map_cons, List.filter_cons]
      by_cases ha : pHAlert v = true
      · simp only [ha, if_true, List.cons_append]
        rw [ih5]
      · simp only [ha, if_false, Bool.false_eq_true]
        rw [ih5]

/-- The temperature loop on tokens that are not the sentinel and that
`std::stoi` accepts, followed by any further tokens. -/
theorem temperatura_loop_append (clock : Nat → String) (pre : List String)
    (hpre : ∀ t ∈ pre, t ≠ "-1" ∧ ∃ v pos, stoi t = .ok (v, pos)) :
    ∀ (k : Nat) (tail : List String),
    (temperatura_loop clock k (pre ++ tail)).status
        = (temperatura_loop clock (k + pre.length) tail).status ∧
      (temperatura_loop clock k (pre ++ tail)).taken
        = pre.length + (temperatura_loop clock (k + pre.length) tail).taken ∧
      (temperatura_loop clock k (pre ++ tail)).sink.length
        = pre.length + (temperatura_loop clock (k + pre.length) tail).sink.length ∧
      (∀ i t, pre[i]? = some t → ∃ v pos, stoi t = .ok (v, pos) ∧
        (temperatura_loop clock k (pre ++ tail)).sink[i]? = some (v, clock (k + i))) ∧
      (temperatura_loop clock k (pre ++ tail)).alerts
        = ((((temperatura_loop clock k (pre ++ tail)).sink.take pre.length).map
              Prod.fst).filter tempAlert)
          ++ (temperatura_loop clock (k + pre.length) tail).alerts := by
  induction pre with
  | nil =>
    intro k tail
    simp
  | cons t pre ih =>
    intro k tail
    obtain ⟨hne, v, pos0, hs⟩ := hpre t (List.mem_cons_self _ _)
    obtain ⟨ih1, ih2, ih3, ih4, ih5⟩ :=
      ih (fun x hx => hpre x (List.mem_cons_of_mem _ hx)) (k + 1) tail
    have hk : k + (t :: pre).length = k + 1 + pre.length := by
      simp only [List.length_cons]
      omega
    rw [List.cons_append, temperatura_loop_cons clock k t (pre ++ tail) hne hs, hk]
    refine ⟨ih1, ?_, ?_, ?_, ?_⟩
    · simp only [ih2, List.length_cons]
      omega
    · simp only [List.length_cons, ih3]
      omega
    · intro i u hu
      cases i with
      | zero =>
        simp only [List.getElem?_cons_zero, Option.some.injEq] at hu
        subst hu
        exact ⟨v, _, hs, by simp⟩
      | succ j =>
        simp only [List.getElem?_cons_succ] at hu
        obtain ⟨w, pos, hw, hj⟩ := ih4 j u hu
        refine ⟨w, pos, hw, ?_⟩
        simp only [List.getElem?_cons_succ, hj]
        congr 3
        omega
    · simp only [List.length_cons, List.take_succ_cons, List.map_cons, List.filter_cons]
      by_cases ha : tempAlert v = true
      · simp only [ha, if_true, List.cons_append]
        rw [ih5]
      · simp only [ha, if_false, Bool.false_eq_true]
        rw [ih5]

/-- A token that is not the sentinel and that the parser rejects ends the
consumer with the exception of the parser, nothing written for it. -/
theorem consumer_loop_thrown (clock : Nat → String) (k : Nat) (t : String)
    (rest : List String) (err : StoError) (ht : t ≠ "-1") :
    (stof t = .error err →
      pH_loop clock k (t :: rest)
        = { sink := [], alerts := [], taken := 1, status := .thrown err }) ∧
    (stoi t = .error err →
      temperatura_loop clock k (t :: rest)
        = { sink := [], alerts := [], taken := 1, status := .thrown err }) := by
  constructor
  · intro h
    simp [pH_loop, ht, h]
  · intro h
    simp [temperatura_loop, ht, h]

/-- On tokens that are each the sentinel or accepted by `std::stof`, the pH
loop raises no exception. -/
theorem pH_loop_not_thrown (clock : Nat → String) (d : List String)
    (hd : ∀ t ∈ d, t = "-1" ∨ (t ≠ "-1" ∧ ∃ v pos, stof t = .ok (v, pos))) :
    ∀ (k : Nat) (err : StoError), (pH_loop clock k d).status ≠ .thrown err := by
  induction d with
  | nil =>
    intro k err
    simp [pH_loop]
  | cons t d ih =>
    intro k err
    rcases hd t (List.mem_cons_self _ _) with rfl | ht
    · simp [pH_loop]
    · obtain ⟨hne, v, pos0, hs⟩ := ht
      rw [pH_loop_cons clock k t d hne hs]
      exact ih (fun x hx => hd x (List.mem_cons_of_mem _ hx)) (k + 1) err

/-- On tokens that are each the sentinel or accepted by `std::stoi`, the
temperature loop raises no exception. -/
theorem temperatura_loop_not_thrown (clock : Nat → String) (d : List String)
    (hd : ∀ t ∈ d, t = "-1" ∨ (t ≠ "-1" ∧ ∃ v pos, stoi t = .ok (v, pos))) :
    ∀ (k : Nat) (err : StoError), (temperatura_loop clock k d).status ≠ .thrown err := by
  induction d with
  | nil =>
    intro k err
    simp [temperatura_loop]
  | cons t d ih =>
    intro k err
    rcases hd t (List.mem_cons_self _ _) with rfl | ht
    · simp [temperatura_loop]
    · obtain ⟨hne, v, pos0, hs⟩ := ht
      rw [temperatura_loop_cons clock k t d hne hs]
      exact ih (fun x hx => hd x (List.mem_cons_of_mem _ hx)) (k + 1) err

/-! ## The bounded buffer -/

/-- C1: for every capacity `C ≥ 0` and every sequence of completed `add` and
`remove` calls on a buffer constructed with `C`, the queue of the state
reached holds between `0` and `C` elements. -/
theorem buffer_length_bounded (C : Int) (hC : 0 ≤ C) (ops : List Op) (r : Run)
    (h : (Run.start C).exec ops = some r) :
    (0 : Int) ≤ (r.buf.dataQueue.length : Int) ∧ (r.buf.dataQueue.length : Int) ≤ C := by
  obtain ⟨_, hl, _⟩ := Run.inv_exec ops (Run.inv_start C) h
  have := toSizeT_le hC
  omega

theorem buffer_length_bounded_witness :
    (0 : Int) ≤ ((⟨⟨2, ["b"]⟩, ["a", "b"], ["a"]⟩ : Run).buf.dataQueue.length : Int) ∧
      ((⟨⟨2, ["b"]⟩, ["a", "b"], ["a"]⟩ : Run).buf.dataQueue.length : Int) ≤ 2 :=
  buffer_length_bounded 2 (by decide) [.add "a", .add "b", .remove]
    ⟨⟨2, ["b"]⟩, ["a", "b"], ["a"]⟩ (by decide)

/-- C2: FIFO. After every sequence of completed calls on a buffer that
started empty, the values passed to `add` are the values returned by `remove`
followed by the content of the queue, in the same order; the returned values
are an initial segment of the added ones and no more removes than adds have
completed. `remove` returns the head of the queue and takes off only it. -/
theorem buffer_fifo (size : Int) (ops : List Op) (r : Run)
    (h : (Run.start size).exec ops = some r) :
    r.added = addArgs ops ∧ r.removed.length = removeCount ops ∧
      r.added = r.removed ++ r.buf.dataQueue ∧ r.removed <+: r.added ∧
      r.removed.length ≤ r.added.length ∧
      (∀ (b : Buffer) (d : String) (rest : List String), b.dataQueue = d :: rest →
        b.remove = some (d, { b with dataQueue := rest })) := by
  obtain ⟨_, _, hf⟩ := Run.inv_exec ops (Run.inv_start size) h
  obtain ⟨h1, h2⟩ := Run.history_exec ops h
  refine ⟨by simpa [Run.start] using h1, by simpa [Run.start] using h2, hf, ?_, ?_, ?_⟩
  · exact ⟨r.buf.dataQueue, hf.symm⟩
  · rw [hf]
    simp
  · intro b d rest hb
    simp [Buffer.remove, hb]

theorem buffer_fifo_witness :
    (⟨⟨1, ["y"]⟩, ["x", "y"], ["x"]⟩ : Run).added = addArgs [.add "x", .remove, .add "y"] ∧
      (⟨⟨1, ["y"]⟩, ["x", "y"], ["x"]⟩ : Run).removed.length
        = removeCount [.add "x", .remove, .add "y"] :=
  let t := buffer_fifo 1 [.add "x", .remove, .add "y"] ⟨⟨1, ["y"]⟩, ["x", "y"], ["x"]⟩
    (by decide)
  ⟨t.1, t.2.1⟩

/-- C3: `add` never drops or rejects a token. On a queue shorter than the
capacity it completes and the new content is the old one with the token at
the tail; on a queue as long as the capacity it cannot complete, and the
queue is as it was. With capacity 1: after `add a` a second `add c` cannot
complete; `remove` returns `a`, and then `add c` completes and the queue is
`[c]`. -/
theorem add_never_drops (b : Buffer) (token : String) :
    (b.dataQueue.length < toSizeT b.size →
        b.add token = some { b with dataQueue := b.dataQueue ++ [token] }) ∧
      (b.dataQueue.length = toSizeT b.size → b.add token = none) ∧
      (∀ a c : String,
        (Run.start 1).exec [.add a] = some ⟨⟨1, [a]⟩, [a], []⟩ ∧
        (Run.start 1).exec [.add a, .add c] = none ∧
        (Run.start 1).exec [.add a, .remove] = some ⟨⟨1, []⟩, [a], [a]⟩ ∧
        (Run.start 1).exec [.add a, .remove, .add c] = some ⟨⟨1, [c]⟩, [a, c], [a]⟩) := by
  refine ⟨?_, ?_, ?_⟩
  · intro h
    simp [Buffer.add, Nat.not_le.mpr h]
  · intro h
    simp [Buffer.add, h]
  · intro a c
    have h1 : toSizeT 1 = 1 := by decide
    simp [Run.exec, Run.step, Run.start, Buffer.init, Buffer.add, Buffer.remove, h1]

theorem add_never_drops_witness :
    (Buffer.init 1).add "a" = some ⟨1, ["a"]⟩ ∧ (⟨1, ["a"]⟩ : Buffer).add "c" = none :=
  ⟨(add_never_drops (Buffer.init 1) "a").1 (by decide),
   (add_never_drops ⟨1, ["a"]⟩ "c").2.1 (by decide)⟩

/-! ## The collector -/

/-- C4: the routing step of the collector. For a read of at least one byte,
with the bytes up to the first NUL as the token: if the token classifies as
`Integer` with a value `≥ 0`, the collector calls `add` of the temperature
buffer with the exact token, the call completes exactly when that buffer has
room, and then the token is at its tail and the pH buffer is as before; the
same with `Float` and the pH buffer; if the token is `Invalid` or its value is
not `≥ 0`, no `add` is called and neither buffer changes. In every case the
collector goes on with the next read. -/
theorem collector_routing (r : ReadResult) (rest : List ReadResult) (h : 1 ≤ r.bytesRead) :
    ∃ acts, processLine r.line = .ok acts ∧
      (reco_loop (r :: rest)).actions = acts ++ (reco_loop rest).actions ∧
      (reco_loop (r :: rest)).status = (reco_loop rest).status ∧
      (∀ v, classify r.line = .Integer v → 0 ≤ v →
        acts = [.addTemp r.line] ∧
        ∀ q q' : Queues, q.performAll acts = some q' ↔
          q.bufferTemp.dataQueue.length < toSizeT q.bufferTemp.size ∧
          q' = { bufferPh := q.bufferPh,
                 bufferTemp := { size := q.bufferTemp.size,
                                 dataQueue := q.bufferTemp.dataQueue ++ [r.line] } }) ∧
      (∀ v, classify r.line = .Float v → v.geZero = true →
        acts = [.addPh r.line] ∧
        ∀ q q' : Queues, q.performAll acts = some q' ↔
          q.bufferPh.dataQueue.length < toSizeT q.bufferPh.size ∧
          q' = { bufferPh := { size := q.bufferPh.size,
                               dataQueue := q.bufferPh.dataQueue ++ [r.line] },
                 bufferTemp := q.bufferTemp }) ∧
      ((classify r.line = .Invalid ∨ (∃ v, classify r.line = .Integer v ∧ v < 0) ∨
          (∃ v, classify r.line = .Float v ∧ v.geZero = false)) →
        phAdds acts = [] ∧ tempAdds acts = [] ∧ ∀ q : Queues, q.performAll acts = some q) := by
  rcases classify_cases r.line with ⟨v, _, _, hc, hp⟩ | ⟨v, _, _, _, hc, hp⟩ | ⟨_, _, hc, hp⟩
  · refine ⟨_, hp, (reco_loop_cons r rest h hp).1, (reco_loop_cons r rest h hp).2, ?_, ?_, ?_⟩
    · intro w hw hw0
      rw [hc] at hw
      cases hw
      simp only [hw0, if_true, true_and]
      exact fun q q' => Queues.performAll_addTemp q q' r.line
    · intro w hw
      rw [hc] at hw
      cases hw
    · rintro (hinv | ⟨w, hw, hneg⟩ | ⟨w, hw, _⟩)
      · rw [hc] at hinv
        cases hinv
      · rw [hc] at hw
        cases hw
        have : ¬ (0 ≤ v) := by omega
        simp [this, phAdds, tempAdds, Queues.performAll, Queues.perform]
      · rw [hc] at hw
        cases hw
  · refine ⟨_, hp, (reco_loop_cons r rest h hp).1, (reco_loop_cons r rest h hp).2, ?_, ?_, ?_⟩
    · intro w hw
      rw [hc] at hw
      cases hw
    · intro w hw hw0
      rw [hc] at hw
      cases hw
      simp only [hw0, if_true, true_and]
      exact fun q q' => Queues.performAll_addPh q q' r.line
    · rintro (hinv | ⟨w, hw, _⟩ | ⟨w, hw, hneg⟩)
      · rw [hc] at hinv
        cases hinv
      · rw [hc] at hw
        cases hw
      · rw [hc] at hw
        cases hw
        simp [hneg, phAdds, tempAdds, Queues.performAll, Queues.perform]
  · refine ⟨_, hp, (reco_loop_cons r rest h hp).1, (reco_loop_cons r rest h hp).2, ?_, ?_, ?_⟩
    · intro w hw
      rw [hc] at hw
      cases hw
    · intro w hw
      rw [hc] at hw
      cases hw
    · intro _
      simp [phAdds, tempAdds, Queues.performAll, Queues.perform]

theorem collector_routing_witness :
    ∃ acts, processLine (⟨2, ['2', '5']⟩ : ReadResult).line = .ok acts ∧
      acts = [.addTemp "25"] :=
  let ⟨acts, h1, _, _, h4, _⟩ := collector_routing ⟨2, ['2', '5']⟩ [] (by decide)
  ⟨acts, h1, (h4 25 (by decide) (by decide)).1⟩

/-! ## The classifier -/

/-- C5, as the claim words it, fails: the token `42` followed by a space is
`Integer 42` once trimmed, and the code, which trims nothing, finds it
`Invalid` (`std::stoi` and `std::stof` both stop before the space). -/
theorem classify_trailing_space :
    spec_classify "42 " = .Integer 42 ∧ classify "42 " = .Invalid ∧
      classify "42 " ≠ spec_classify "42 " := by
  decide

/-- C5, amended: the token is `Integer v` exactly when it is white space, an
optional sign and one or more digits with nothing after them, of a value `v`
within `int`; otherwise it is `Float v` exactly when `std::stof` reads the
whole token (leading white space included, nothing after the number) and
gives `v`; otherwise it is `Invalid`. -/
theorem classify_policy (line : String) :
    (∀ v, classify line = .Integer v ↔ IntegerToken line.data v) ∧
      (∀ v, classify line = .Float v ↔
        (¬ ∃ w, IntegerToken line.data w) ∧ stof line = .ok (v, line.length)) ∧
      (classify line = .Invalid ↔
        (¬ ∃ w, IntegerToken line.data w) ∧ ¬ ∃ v, stof line = .ok (v, line.length)) := by
  have hint : ∀ w, IntegerToken line.data w → is_integer line = true := fun w hw =>
    (is_integer_iff line).mpr ⟨w, (stoi_ok_iff line w).mpr hw⟩
  rcases classify_cases line with ⟨v, _, hs, hc, _⟩ | ⟨v, hi, _, hs, hc, _⟩ | ⟨hi, hf, hc, _⟩
  · have hv := (stoi_ok_iff line v).mp hs
    refine ⟨fun w => ?_, fun w => ?_, ?_⟩
    · rw [hc, ← stoi_ok_iff, hs]
      simp
    · rw [hc]
      constructor
      · intro h
        cases h
      · rintro ⟨hno, _⟩
        exact absurd ⟨v, hv⟩ hno
    · rw [hc]
      constructor
      · intro h
        cases h
      · rintro ⟨hno, _⟩
        exact absurd ⟨v, hv⟩ hno
  · have hno : ¬ ∃ w, IntegerToken line.data w := by
      rintro ⟨w, hw⟩
      rw [hint w hw] at hi
      cases hi
    refine ⟨fun w => ?_, fun w => ?_, ?_⟩
    · rw [hc]
      constructor
      · intro h
        cases h
      · intro hw
        exact absurd ⟨w, hw⟩ hno
    · rw [hc, hs]
      simp [hno]
    · rw [hc]
      constructor
      · intro h
        cases h
      · rintro ⟨_, hnf⟩
        exact absurd ⟨v, hs⟩ hnf
  · have hno : ¬ ∃ w, IntegerToken line.data w := by
      rintro ⟨w, hw⟩
      rw [hint w hw] at hi
      cases hi
    have hnf : ¬ ∃ v, stof line = .ok (v, line.length) := by
      intro h
      rw [(is_float_iff line).mpr h] at hf
      cases hf
    refine ⟨fun w => ?_, fun w => ?_, ?_⟩
    · rw [hc]
      constructor
      · intro h
        cases h
      · intro hw
        exact absurd ⟨w, hw⟩ hno
    · rw [hc]
      constructor
      · intro h
        cases h
      · rintro ⟨_, hw⟩
        exact absurd ⟨w, hw⟩ hnf
    · rw [hc]
      exact ⟨fun _ => ⟨hno, hnf⟩, fun _ => rfl⟩

/-- C6: integer before float on the example tokens. `42` and `5` are
`Integer` and go to the temperature buffer although `is_float` accepts them
too; `3.14` is `Float` of the `float` nearest to 3.14; `-1` is `Integer (-1)`
and is not passed on; `abc` is `Invalid`; `7.2e2` is `Float` of 720 and goes
to the pH buffer. -/
theorem classifier_examples :
    classify "42" = .Integer 42 ∧ classify "5" = .Integer 5 ∧
      is_float "42" = true ∧ is_float "5" = true ∧
      processLine "42" = .ok [.addTemp "42"] ∧ processLine "5" = .ok [.addTemp "5"] ∧
      classify "3.14" = .Float (.finite false 13170115 (-22)) ∧
      (∃ q : ℚ, (FloatVal.finite false 13170115 (-22)).toRat = some q ∧
        |q - 314 / 100| ≤ 1 / 2 ^ 23) ∧
      processLine "3.14" = .ok [.addPh "3.14"] ∧
      classify "-1" = .Integer (-1) ∧ processLine "-1" = .ok [.cerr msgNegative] ∧
      classify "abc" = .Invalid ∧ processLine "abc" = .ok [.cerr msgInvalid] ∧
      classify "7.2e2" = .Float (.finite false 11796480 (-14)) ∧
      (FloatVal.finite false 11796480 (-14)).toRat = some 720 ∧
      processLine "7.2e2" = .ok [.addPh "7.2e2"] := by
  refine ⟨by decide, by decide, by decide, by decide, by decide, by decide, by decide, ?_,
    by decide, by decide, by decide, by decide, by decide, by decide, ?_, by decide⟩
  · refine ⟨13170115 / 4194304, ?_, ?_⟩
    · simp only [FloatVal.toRat, signed]
      norm_num
    · rw [abs_le]
      constructor <;> norm_num
  · simp only [FloatVal.toRat, signed]
    norm_num

/-! ## Shutdown, the consumers and the queue boundary -/

/-- C7: the shutdown of the collector is one-shot and terminal. At the first
read that returns `0` or less the collector calls `add "-1"` on the pH buffer
and then on the temperature buffer, once each, and returns; no later read is
looked at. The tokens it passes to each buffer are the routed readings of the
reads before, in arrival order, followed by one `"-1"`, the only one; on
buffers with room for them, these tokens are what is appended to each
queue. -/
theorem collector_shutdown (pipeFd : Int) (pipeName : String) (pre post : List ReadResult)
    (r : ReadResult) (hfd : 0 ≤ pipeFd) (hpre : ∀ x ∈ pre, 1 ≤ x.bytesRead)
    (hr : r.bytesRead ≤ 0) :
    (reco_hilo pipeFd pipeName (pre ++ r :: post)).status = .returned ∧
      (reco_hilo pipeFd pipeName (pre ++ r :: post)).actions =
        (reco_loop pre).actions ++
          [.sleep 10, .addPh "-1", .addTemp "-1", .unlink,
           .cout "Finalizado el procesamiento de mediciones", .close] ∧
      phAdds (reco_hilo pipeFd pipeName (pre ++ r :: post)).actions
        = (pre.map ReadResult.line).filter routesPh ++ ["-1"] ∧
      tempAdds (reco_hilo pipeFd pipeName (pre ++ r :: post)).actions
        = (pre.map ReadResult.line).filter routesTemp ++ ["-1"] ∧
      (phAdds (reco_hilo pipeFd pipeName (pre ++ r :: post)).actions).count "-1" = 1 ∧
      (tempAdds (reco_hilo pipeFd pipeName (pre ++ r :: post)).actions).count "-1" = 1 ∧
      (∀ q : Queues,
        q.bufferPh.dataQueue.length + ((pre.map ReadResult.line).filter routesPh).length + 1
          ≤ toSizeT q.bufferPh.size →
        q.bufferTemp.dataQueue.length + ((pre.map ReadResult.line).filter routesTemp).length + 1
          ≤ toSizeT q.bufferTemp.size →
        q.performAll (reco_hilo pipeFd pipeName (pre ++ r :: post)).actions = some
          { bufferPh := { size := q.bufferPh.size,
                          dataQueue := q.bufferPh.dataQueue ++
                            ((pre.map ReadResult.line).filter routesPh ++ ["-1"]) },
            bufferTemp := { size := q.bufferTemp.size,
                            dataQueue := q.bufferTemp.dataQueue ++
                              ((pre.map ReadResult.line).filter routesTemp ++ ["-1"]) } }) := by
  obtain ⟨h1, h2, h3, h4⟩ := reco_loop_append pre (r :: post) hpre
  have hfd' : ¬ pipeFd < 0 := by omega
  have htail : reco_loop (r :: post) = { actions := shutdownActions, status := .returned } := by
    simp [reco_loop, hr]
  rw [htail] at h1 h2
  have hact : (reco_hilo pipeFd pipeName (pre ++ r :: post)).actions =
      (reco_loop pre).actions ++
        [.sleep 10, .addPh "-1", .addTemp "-1", .unlink,
         .cout "Finalizado el procesamiento de mediciones", .close] := by
    simp [reco_hilo, hfd', h1, h2, shutdownActions]
  have hph : phAdds (reco_hilo pipeFd pipeName (pre ++ r :: post)).actions
      = (pre.map ReadResult.line).filter routesPh ++ ["-1"] := by
    rw [hact, phAdds_append, h3]
    rfl
  have htemp : tempAdds (reco_hilo pipeFd pipeName (pre ++ r :: post)).actions
      = (pre.map ReadResult.line).filter routesTemp ++ ["-1"] := by
    rw [hact, tempAdds_append, h4]
    rfl
  refine ⟨by simp [reco_hilo, hfd', h2], hact, hph, htemp, ?_, ?_, ?_⟩
  · rw [hph, List.count_append, List.count_singleton_self, List.count_eq_zero_of_not_mem]
    intro hmem
    exact (routesPh_spec (List.mem_filter.mp hmem).2).1 rfl
  · rw [htemp, List.count_append, List.count_singleton_self, List.count_eq_zero_of_not_mem]
    intro hmem
    exact (routesTemp_spec (List.mem_filter.mp hmem).2).1 rfl
  · intro q hq1 hq2
    have := Queues.performAll_of_room (reco_hilo pipeFd pipeName (pre ++ r :: post)).actions q
      (by rw [hph]; simpa [Nat.add_assoc] using hq1)
      (by rw [htemp]; simpa [Nat.add_assoc] using hq2)
    rw [this, hph, htemp]

theorem collector_shutdown_witness :
    phAdds (reco_hilo 3 "pipe"
        ([⟨3, ['7', '.', '0']⟩, ⟨2, ['2', '5']⟩] ++ ⟨0, []⟩ :: [⟨1, ['9']⟩])).actions
      = ([⟨3, ['7', '.', '0']⟩, ⟨2, ['2', '5']⟩].map ReadResult.line).filter routesPh ++ ["-1"] :=
  (collector_shutdown 3 "pipe" [⟨3, ['7', '.', '0']⟩, ⟨2, ['2', '5']⟩] [⟨1, ['9']⟩] ⟨0, []⟩
    (by decide) (by decide) (by decide)).2.2.1

/-- C8: the loop of each consumer. On tokens of its buffer, routed readings
followed by the sentinel and then anything: the consumer returns at the
sentinel, having taken the readings and the sentinel and nothing after it; it
has written one line per reading, in the order taken, each with the value its
parser gives and the time of that moment; the values reported as alerts are
among the values written, so a line is written whether or not there is an
alert. Before the sentinel arrives it is waiting, one line written per
reading. -/
theorem consumer_loops (clock : Nat → String) (k : Nat) (pre post : List String) :
    ((∀ t ∈ pre, routesPh t = true) →
      "-1" ∉ pre ∧
      (pH_loop clock k (pre ++ "-1" :: post)).status = .returned ∧
      (pH_loop clock k (pre ++ "-1" :: post)).taken = pre.length + 1 ∧
      (pH_loop clock k (pre ++ "-1" :: post)).sink.length = pre.length ∧
      (∀ i t, pre[i]? = some t → ∃ v pos, stof t = .ok (v, pos) ∧
        (pH_loop clock k (pre ++ "-1" :: post)).sink[i]? = some (v, clock (k + i))) ∧
      (pH_loop clock k (pre ++ "-1" :: post)).alerts
        = ((pH_loop clock k (pre ++ "-1" :: post)).sink.map Prod.fst).filter pHAlert ∧
      (pH_loop clock k pre).status = .waiting ∧
      (pH_loop clock k pre).taken = pre.length ∧
      (pH_loop clock k pre).sink.length = pre.length) ∧
    ((∀ t ∈ pre, routesTemp t = true) →
      "-1" ∉ pre ∧
      (temperatura_loop clock k (pre ++ "-1" :: post)).status = .returned ∧
      (temperatura_loop clock k (pre ++ "-1" :: post)).taken = pre.length + 1 ∧
      (temperatura_loop clock k (pre ++ "-1" :: post)).sink.length = pre.length ∧
      (∀ i t, pre[i]? = some t → ∃ v pos, stoi t = .ok (v, pos) ∧
        (temperatura_loop clock k (pre ++ "-1" :: post)).sink[i]? = some (v, clock (k + i))) ∧
      (temperatura_loop clock k (pre ++ "-1" :: post)).alerts
        = ((temperatura_loop clock k (pre ++ "-1" :: post)).sink.map Prod.fst).filter
            tempAlert ∧
      (temperatura_loop clock k pre).status = .waiting ∧
      (temperatura_loop clock k pre).taken = pre.length ∧
      (temperatura_loop clock k pre).sink.length = pre.length) := by
  constructor
  · intro hpre
    have hp : ∀ t ∈ pre, t ≠ "-1" ∧ ∃ v pos, stof t = .ok (v, pos) :=
      fun t ht => routesPh_parse (hpre t ht)
    obtain ⟨h1, h2, h3, h4, h5⟩ := pH_loop_append clock pre hp k ("-1" :: post)
    obtain ⟨g1, g2, g3, _, _⟩ := pH_loop_append clock pre hp k []
    have hs : pH_loop clock (k + pre.length) ("-1" :: post)
        = { sink := [], alerts := [], taken := 1, status := .returned } := by
      simp [pH_loop]
    have hw : pH_loop clock (k + pre.length) []
        = { sink := [], alerts := [], taken := 0, status := .waiting } := by
      simp [pH_loop]
    rw [hs] at h1 h2 h3 h5
    rw [hw, List.append_nil] at g1 g2 g3
    refine ⟨fun hmem => (routesPh_spec (hpre _ hmem)).1 rfl, h1, h2, by simpa using h3, h4,
      ?_, g1, by simpa using g2, by simpa using g3⟩
    rw [h5, List.append_nil, List.take_of_length_le (by simpa using h3.le)]
  · intro hpre
    have hp : ∀ t ∈ pre, t ≠ "-1" ∧ ∃ v pos, stoi t = .ok (v, pos) :=
      fun t ht => routesTemp_parse (hpre t ht)
    obtain ⟨h1, h2, h3, h4, h5⟩ := temperatura_loop_append clock pre hp k ("-1" :: post)
    obtain ⟨g1, g2, g3, _, _⟩ := temperatura_loop_append clock pre hp k []
    have hs : temperatura_loop clock (k + pre.length) ("-1" :: post)
        = { sink := [], alerts := [], taken := 1, status := .returned } := by
      simp [temperatura_loop]
    have hw : temperatura_loop clock (k + pre.length) []
        = { sink := [], alerts := [], taken := 0, status := .waiting } := by
      simp [temperatura_loop]
    rw [hs] at h1 h2 h3 h5
    rw [hw, List.append_nil] at g1 g2 g3
    refine ⟨fun hmem => (routesTemp_spec (hpre _ hmem)).1 rfl, h1, h2, by simpa using h3, h4,
      ?_, g1, by simpa using g2, by simpa using g3⟩
    rw [h5, List.append_nil, List.take_of_length_le (by simpa using h3.le)]

theorem consumer_loops_witness :
    (pH_loop (fun _ => "12:00:00") 0 (["7.0", "9.5"] ++ "-1" :: ["8.1"])).sink.length = 2 ∧
      (temperatura_loop (fun _ => "12:00:00") 0 (["25"] ++ "-1" :: ["30"])).taken = 2 :=
  ⟨((consumer_loops (fun _ => "12:00:00") 0 ["7.0", "9.5"] ["8.1"]).1 (by decide)).2.2.2.1,
   ((consumer_loops (fun _ => "12:00:00") 0 ["25"] ["30"]).2 (by decide)).2.2.1⟩

/-- C9: the sentinel is unambiguous. No token the collector passes to a buffer
from a chunk it read is `"-1"`. Hence, when the collector has shut down after
the reads `pre`, each consumer, given the tokens of its buffer, returns only
on the last one, the `"-1"` of the shutdown, with one line written for every
routed reading; on any shorter delivery it is still waiting, every token
delivered taken. -/
theorem sentinel_unambiguous (pipeFd : Int) (pipeName : String) (pre post : List ReadResult)
    (r : ReadResult) (clock : Nat → String) (k : Nat) (hfd : 0 ≤ pipeFd)
    (hpre : ∀ x ∈ pre, 1 ≤ x.bytesRead) (hr : r.bytesRead ≤ 0) :
    (∀ x : ReadResult, ∃ acts, processLine x.line = .ok acts ∧
      "-1" ∉ phAdds acts ∧ "-1" ∉ tempAdds acts) ∧
    ((pH_loop clock k (phAdds (reco_hilo pipeFd pipeName (pre ++ r :: post)).actions)).status
        = .returned ∧
      (pH_loop clock k (phAdds (reco_hilo pipeFd pipeName (pre ++ r :: post)).actions)).taken
        = (phAdds (reco_hilo pipeFd pipeName (pre ++ r :: post)).actions).length ∧
      (pH_loop clock k (phAdds (reco_hilo pipeFd pipeName (pre ++ r :: post)).actions)).sink.length
        = ((pre.map ReadResult.line).filter routesPh).length ∧
      ∀ d, d <+: phAdds (reco_hilo pipeFd pipeName (pre ++ r :: post)).actions →
        d ≠ phAdds (reco_hilo pipeFd pipeName (pre ++ r :: post)).actions →
        (pH_loop clock k d).status = .waiting ∧ (pH_loop clock k d).taken = d.length) ∧
    ((temperatura_loop clock k
          (tempAdds (reco_hilo pipeFd pipeName (pre ++ r :: post)).actions)).status
        = .returned ∧
      (temperatura_loop clock k
          (tempAdds (reco_hilo pipeFd pipeName (pre ++ r :: post)).actions)).taken
        = (tempAdds (reco_hilo pipeFd pipeName (pre ++ r :: post)).actions).length ∧
      (temperatura_loop clock k
          (tempAdds (reco_hilo pipeFd pipeName (pre ++ r :: post)).actions)).sink.length
        = ((pre.map ReadResult.line).filter routesTemp).length ∧
      ∀ d, d <+: tempAdds (reco_hilo pipeFd pipeName (pre ++ r :: post)).actions →
        d ≠ tempAdds (reco_hilo pipeFd pipeName (pre ++ r :: post)).actions →
        (temperatura_loop clock k d).status = .waiting ∧
          (temperatura_loop clock k d).taken = d.length) := by
  obtain ⟨h1, h2, h3, h4⟩ := reco_loop_append pre (r :: post) hpre
  have hfd' : ¬ pipeFd < 0 := by omega
  have htail : reco_loop (r :: post) = { actions := shutdownActions, status := .returned } := by
    simp [reco_loop, hr]
  rw [htail] at h1 h2
  obtain ⟨a1, a2⟩ := reco_hilo_adds pipeFd pipeName (pre ++ r :: post)
  simp only [hfd', if_false] at a1 a2
  rw [h1, phAdds_append, h3] at a1
  rw [h1, tempAdds_append, h4] at a2
  have s1 : phAdds shutdownActions = ["-1"] := rfl
  have s2 : tempAdds shutdownActions = ["-1"] := rfl
  rw [s1] at a1
  rw [s2] at a2
  refine ⟨?_, ?_, ?_⟩
  · intro x
    obtain ⟨acts, ha, hph, htemp⟩ := processLine_adds x.line
    refine ⟨acts, ha, ?_, ?_⟩
    · rw [hph]
      by_cases hrt : routesPh x.line = true
      · simp only [hrt, if_true, List.mem_singleton]
        exact fun h => (routesPh_spec hrt).1 h.symm
      · simp [hrt]
    · rw [htemp]
      by_cases hrt : routesTemp x.line = true
      · simp only [hrt, if_true, List.mem_singleton]
        exact fun h => (routesTemp_spec hrt).1 h.symm
      · simp [hrt]
  · have hall : ∀ t ∈ (pre.map ReadResult.line).filter routesPh,
        t ≠ "-1" ∧ ∃ v pos, stof t = .ok (v, pos) :=
      fun t ht => routesPh_parse (List.mem_filter.mp ht).2
    obtain ⟨c1, c2, c3, _, _⟩ := (pH_loop_append clock _ hall k ["-1"])
    have hs : ∀ j, pH_loop clock j ["-1"]
        = { sink := [], alerts := [], taken := 1, status := .returned } := by
      intro j
      simp [pH_loop]
    rw [hs] at c1 c2 c3
    rw [a1]
    refine ⟨c1, by simpa using c2, by simpa using c3, ?_⟩
    intro d hd hne
    rcases List.prefix_concat_iff.mp hd with heq | hpre'
    · exact absurd heq hne
    · have hd' : ∀ t ∈ d, t ≠ "-1" ∧ ∃ v pos, stof t = .ok (v, pos) :=
        fun t ht => hall t (hpre'.subset ht)
      obtain ⟨e1, e2, _, _, _⟩ := pH_loop_append clock d hd' k []
      have hw : ∀ j, pH_loop clock j []
          = { sink := [], alerts := [], taken := 0, status := .waiting } := by
        intro j
        simp [pH_loop]
      rw [hw, List.append_nil] at e1 e2
      exact ⟨e1, by simpa using e2⟩
  · have hall : ∀ t ∈ (pre.map ReadResult.line).filter routesTemp,
        t ≠ "-1" ∧ ∃ v pos, stoi t = .ok (v, pos) :=
      fun t ht => routesTemp_parse (List.mem_filter.mp ht).2
    obtain ⟨c1, c2, c3, _, _⟩ := (temperatura_loop_append clock _ hall k ["-1"])
    have hs : ∀ j, temperatura_loop clock j ["-1"]
        = { sink := [], alerts := [], taken := 1, status := .returned } := by
      intro j
      simp [temperatura_loop]
    rw [hs] at c1 c2 c3
    rw [a2]
    refine ⟨c1, by simpa using c2, by simpa using c3, ?_⟩
    intro d hd hne
    rcases List.prefix_concat_iff.mp hd with heq | hpre'
    · exact absurd heq hne
    · have hd' : ∀ t ∈ d, t ≠ "-1" ∧ ∃ v pos, stoi t = .ok (v, pos) :=
        fun t ht => hall t (hpre'.subset ht)
      obtain ⟨e1, e2, _, _, _⟩ := temperatura_loop_append clock d hd' k []
      have hw : ∀ j, temperatura_loop clock j []
          = { sink := [], alerts := [], taken := 0, status := .waiting } := by
        intro j
        simp [temperatura_loop]
      rw [hw, List.append_nil] at e1 e2
      exact ⟨e1, by simpa using e2⟩

theorem sentinel_unambiguous_witness :
    (pH_loop (fun _ => "12:00:00") 0
        (phAdds (reco_hilo 3 "pipe"
          ([⟨3, ['7', '.', '0']⟩, ⟨2, ['-', '1']⟩] ++ ⟨0, []⟩ :: [])).actions)).status
      = .returned :=
  (sentinel_unambiguous 3 "pipe" [⟨3, ['7', '.', '0']⟩, ⟨2, ['-', '1']⟩] [] ⟨0, []⟩
    (fun _ => "12:00:00") 0 (by decide) (by decide) (by decide)).2.1.1

/-- C10: no error crosses a buffer. Every token the collector passes to the
temperature buffer is the sentinel or a token that `std::stoi` reads whole,
with a value `≥ 0`; every token it passes to the pH buffer is the sentinel or
a token that `std::stof` reads whole, with a value `≥ 0`. The collector
raises no exception, and neither does a consumer on the tokens of its buffer,
however many of them have been delivered. -/
theorem queue_boundary (pipeFd : Int) (pipeName : String) (reads : List ReadResult) :
    (∀ t ∈ tempAdds (reco_hilo pipeFd pipeName reads).actions,
      t = "-1" ∨ ∃ v, stoi t = .ok (v, t.length) ∧ 0 ≤ v) ∧
    (∀ t ∈ phAdds (reco_hilo pipeFd pipeName reads).actions,
      t = "-1" ∨ ∃ v, stof t = .ok (v, t.length) ∧ v.geZero = true) ∧
    (∀ err, (reco_hilo pipeFd pipeName reads).status ≠ .thrown err) ∧
    (∀ (clock : Nat → String) (k : Nat) (d : List String),
      d <+: tempAdds (reco_hilo pipeFd pipeName reads).actions →
      ∀ err, (temperatura_loop clock k d).status ≠ .thrown err) ∧
    (∀ (clock : Nat → String) (k : Nat) (d : List String),
      d <+: phAdds (reco_hilo pipeFd pipeName reads).actions →
      ∀ err, (pH_loop clock k d).status ≠ .thrown err) := by
  obtain ⟨a1, a2⟩ := reco_hilo_adds pipeFd pipeName reads
  obtain ⟨b1, b2, b3⟩ := reco_loop_adds reads
  have hph : ∀ t ∈ phAdds (reco_hilo pipeFd pipeName reads).actions,
      t = "-1" ∨ routesPh t = true := by
    intro t ht
    rw [a1] at ht
    by_cases h : pipeFd < 0
    · simp [h] at ht
    · simp only [h, if_false] at ht
      exact b1 t ht
  have htemp : ∀ t ∈ tempAdds (reco_hilo pipeFd pipeName reads).actions,
      t = "-1" ∨ routesTemp t = true := by
    intro t ht
    rw [a2] at ht
    by_cases h : pipeFd < 0
    · simp [h] at ht
    · simp only [h, if_false] at ht
      exact b2 t ht
  refine ⟨?_, ?_, ?_, ?_, ?_⟩
  · intro t ht
    rcases htemp t ht with h | h
    · exact Or.inl h
    · exact Or.inr (routesTemp_spec h).2
  · intro t ht
    rcases hph t ht with h | h
    · exact Or.inl h
    · exact Or.inr (routesPh_spec h).2
  · intro err
    by_cases h : pipeFd < 0
    · simp [reco_hilo, h]
    · simp only [reco_hilo, h, if_false]
      cases hs : (reco_loop reads).status with
      | returned => simp
      | waiting => simp
      | thrown e => exact absurd hs (b3 e)
  · intro clock k d hd
    exact temperatura_loop_not_thrown clock d
      (fun t ht => (htemp t (hd.subset ht)).imp id routesTemp_parse) k
  · intro clock k d hd
    exact pH_loop_not_thrown clock d
      (fun t ht => (hph t (hd.subset ht)).imp id routesPh_parse) k

theorem queue_boundary_witness :
    ("25" : String) = "-1" ∨ ∃ v, stoi "25" = .ok (v, ("25" : String).length) ∧ 0 ≤ v :=
  (queue_boundary 3 "pipe" [⟨3, ['7', '.', '0']⟩, ⟨2, ['2', '5']⟩, ⟨0, []⟩]).1 "25" (by decide)

/-! ## The alerts -/

theorem FloatVal.geNat_iff (neg : Bool) (m : Nat) (e : Int) (c : Nat) :
    (FloatVal.finite neg m e).geNat c = true ↔ (c : ℚ) ≤ (signed neg m : ℚ) * 2 ^ e := by
  by_cases he : 0 ≤ e
  · obtain ⟨n, rfl⟩ := Int.eq_ofNat_of_zero_le he
    simp only [FloatVal.geNat, he, if_true, decide_eq_true_eq, Int.toNat_ofNat, zpow_natCast]
    exact_mod_cast Iff.rfl
  · obtain ⟨n, hn⟩ : ∃ n : Nat, e = -(n : Int) := ⟨(-e).toNat, by omega⟩
    subst hn
    have hpos : (0 : ℚ) < 2 ^ n := by positivity
    simp only [FloatVal.geNat, he, if_false, decide_eq_true_eq, neg_neg, Int.toNat_ofNat,
      zpow_neg, zpow_natCast]
    rw [← div_eq_mul_inv, le_div_iff₀ hpos]
    exact_mod_cast Iff.rfl

theorem FloatVal.leNat_iff (neg : Bool) (m : Nat) (e : Int) (c : Nat) :
    (FloatVal.finite neg m e).leNat c = true ↔ (signed neg m : ℚ) * 2 ^ e ≤ (c : ℚ) := by
  by_cases he : 0 ≤ e
  · obtain ⟨n, rfl⟩ := Int.eq_ofNat_of_zero_le he
    simp only [FloatVal.leNat, he, if_true, decide_eq_true_eq, Int.toNat_ofNat, zpow_natCast]
    exact_mod_cast Iff.rfl
  · obtain ⟨n, hn⟩ : ∃ n : Nat, e = -(n : Int) := ⟨(-e).toNat, by omega⟩
    subst hn
    have hpos : (0 : ℚ) < 2 ^ n := by positivity
    simp only [FloatVal.leNat, he, if_false, decide_eq_true_eq, neg_neg, Int.toNat_ofNat,
      zpow_neg, zpow_natCast]
    rw [← div_eq_mul_inv, div_le_iff₀ hpos]
    exact_mod_cast Iff.rfl

/-- C11: the pH alert. For a token other than the sentinel that the pH
consumer takes, with `value` what `std::stof` gives, the alert is reported
exactly when `value >= 8.0` or `value <= 6.0`: for a finite `value` that is
the comparison of the number it stands for with 8 and 6, an infinity alerts
and a NaN does not. The tokens `6.0` and `8.0` are read as 6 and 8 and alert;
`7.0` is read as 7 and does not. -/
theorem pH_alert_predicate (clock : Nat → String) (k : Nat) (t : String)
    (rest : List String) (value : FloatVal) (pos : Nat) (ht : t ≠ "-1")
    (hs : stof t = .ok (value, pos)) :
    (pH_loop clock k (t :: rest)).alerts
        = (if pHAlert value then [value] else []) ++ (pH_loop clock (k + 1) rest).alerts ∧
      (∀ q : ℚ, value.toRat = some q → (pHAlert value = true ↔ 8 ≤ q ∨ q ≤ 6)) ∧
      (∀ neg, value = .inf neg → pHAlert value = true) ∧
      (value = .nan → pHAlert value = false) ∧
      (∃ v, stof "6.0" = .ok (v, 3) ∧ v.toRat = some 6 ∧ pHAlert v = true) ∧
      (∃ v, stof "8.0" = .ok (v, 3) ∧ v.toRat = some 8 ∧ pHAlert v = true) ∧
      (∃ v, stof "7.0" = .ok (v, 3) ∧ v.toRat = some 7 ∧ pHAlert v = false) := by
  refine ⟨?_, ?_, ?_, ?_, ?_, ?_, ?_⟩
  · rw [pH_loop_cons clock k t rest ht hs]
    by_cases ha : pHAlert value = true <;> simp [ha]
  · intro q hq
    cases value with
    | finite neg m e =>
      simp only [FloatVal.toRat, Option.some.injEq] at hq
      subst hq
      simp only [pHAlert, Bool.or_eq_true, FloatVal.geNat_iff, FloatVal.leNat_iff]
      norm_num
    | inf neg => simp [FloatVal.toRat] at hq
    | nan => simp [FloatVal.toRat] at hq
  · rintro neg rfl
    cases neg <;> decide
  · rintro rfl
    decide
  · refine ⟨.finite false 12582912 (-21), by decide, ?_, by decide⟩
    simp only [FloatVal.toRat, signed]
    norm_num
  · refine ⟨.finite false 8388608 (-20), by decide, ?_, by decide⟩
    simp only [FloatVal.toRat, signed]
    norm_num
  · refine ⟨.finite false 14680064 (-21), by decide, ?_, by decide⟩
    simp only [FloatVal.toRat, signed]
    norm_num

theorem pH_alert_predicate_witness :
    (pH_loop (fun _ => "12:00:00") 0 ("9.5" :: ["-1"])).alerts
      = (if pHAlert (.finite false 9961472 (-20)) then [.finite false 9961472 (-20)] else [])
        ++ (pH_loop (fun _ => "12:00:00") (0 + 1) ["-1"]).alerts :=
  (pH_alert_predicate (fun _ => "12:00:00") 0 "9.5" ["-1"] (.finite false 9961472 (-20)) 3
    (by decide) (by decide)).1

theorem tempAlert_iff (value : Int) : tempAlert value = true ↔ 32 ≤ value ∨ value ≤ 20 := by
  simp only [tempAlert, Bool.or_eq_true, decide_eq_true_eq]
  omega

/-- C12, as the claim words it, fails at the value 31.6: the temperature
consumer reads its tokens with `std::stoi`, so its value is an `int`. The
reading `31.6` is a `Float` for the collector, which passes it to the pH
buffer and not to the temperature buffer; and the temperature loop, were it
handed the token, would read it as 31, write 31 and report no alert. -/
theorem temperature_31_6_no_alert :
    classify "31.6" = .Float (.finite false 16567501 (-19)) ∧
      processLine "31.6" = .ok [.addPh "31.6"] ∧ routesTemp "31.6" = false ∧
      stoi "31.6" = .ok (31, 2) ∧ tempAlert 31 = false ∧
      (temperatura_loop (fun _ => "12:00:00") 0 ["31.6", "-1"]).sink = [(31, "12:00:00")] ∧
      (temperatura_loop (fun _ => "12:00:00") 0 ["31.6", "-1"]).alerts = [] := by
  decide

/-- C12, amended: the temperature alert. For a token other than the sentinel
that the temperature consumer takes, with `value` the `int` that `std::stoi`
gives, the alert is reported exactly when `value >= 31.6` or `value <= 20`,
which for an `int` is `value >= 32` or `value <= 20`. The values 20 and 32
alert; 25 and 31 do not. -/
theorem temperature_alert_predicate (clock : Nat → String) (k : Nat) (t : String)
    (rest : List String) (value : Int) (pos : Nat) (ht : t ≠ "-1")
    (hs : stoi t = .ok (value, pos)) :
    (temperatura_loop clock k (t :: rest)).alerts
        = (if tempAlert value then [value] else [])
          ++ (temperatura_loop clock (k + 1) rest).alerts ∧
      (tempAlert value = true ↔ (316 / 10 : ℚ) ≤ (value : ℚ) ∨ (value : ℚ) ≤ 20) ∧
      (tempAlert value = true ↔ 32 ≤ value ∨ value ≤ 20) ∧
      (stoi "20" = .ok (20, 2) ∧ tempAlert 20 = true) ∧
      (stoi "32" = .ok (32, 2) ∧ tempAlert 32 = true) ∧
      (stoi "25" = .ok (25, 2) ∧ tempAlert 25 = false) ∧
      (stoi "31" = .ok (31, 2) ∧ tempAlert 31 = false) := by
  refine ⟨?_, ?_, tempAlert_iff value, by decide, by decide, by decide, by decide⟩
  · rw [temperatura_loop_cons clock k t rest ht hs]
    by_cases ha : tempAlert value = true <;> simp [ha]
  · rw [tempAlert_iff]
    constructor
    · rintro (h | h)
      · left
        have : (32 : ℚ) ≤ (value : ℚ) := by exact_mod_cast h
        linarith
      · right
        exact_mod_cast h
    · rintro (h | h)
      · left
        by_contra hlt
        have h31 : value ≤ 31 := by omega
        have : (value : ℚ) ≤ 31 := by exact_mod_cast h31
        linarith
      · right
        exact_mod_cast h

theorem temperature_alert_predicate_witness :
    (tempAlert 35 = true ↔ (316 / 10 : ℚ) ≤ ((35 : Int) : ℚ) ∨ ((35 : Int) : ℚ) ≤ 20) :=
  (temperature_alert_predicate (fun _ => "12:00:00") 0 "35" ["-1"] 35 2
    (by decide) (by decide)).2.1

/-! ## One read, one token -/

theorem takeWhile_nonNul_append (a b : List Char) (ha : ∀ c ∈ a, c.toNat ≠ 0) :
    (a ++ Char.ofNat 0 :: b).takeWhile (fun c => c.toNat != 0) = a := by
  induction a with
  | nil => simp [List.takeWhile]
  | cons x a ih =>
    have hx : x.toNat ≠ 0 := ha x (List.mem_cons_self _ _)
    simp only [List.cons_append, List.takeWhile_cons, bne_iff_ne, ne_eq, hx, not_false_eq_true,
      if_true, decide_True]
    rw [ih (fun c hc => ha c (List.mem_cons_of_mem _ hc))]

/-- C16: the token of a read is the bytes read up to the first NUL byte, and
what follows that byte in the same read is dropped. A read that returns two
writes of the emitter at once, `7.0` NUL `25` NUL, gives the one token `7.0`
and the one call `add "7.0"` on the pH buffer: nothing is passed to the
temperature buffer and nothing is reported, whereas the two writes read one
by one give both `add` calls. -/
theorem read_is_one_token (a b : List Char) (rest : List ReadResult)
    (ha : ∀ c ∈ a, c.toNat ≠ 0) :
    (ReadResult.mk (a.length + 1 + b.length) (a ++ Char.ofNat 0 :: b)).line = String.mk a ∧
      sensor_write "7.0" ++ sensor_write "25"
        = ['7', '.', '0', Char.ofNat 0, '2', '5', Char.ofNat 0] ∧
      (ReadResult.mk 7 (sensor_write "7.0" ++ sensor_write "25")).line = "7.0" ∧
      processLine (ReadResult.mk 7 (sensor_write "7.0" ++ sensor_write "25")).line
        = .ok [.addPh "7.0"] ∧
      (reco_loop (⟨7, sensor_write "7.0" ++ sensor_write "25"⟩ :: rest)).actions
        = [.addPh "7.0"] ++ (reco_loop rest).actions ∧
      (reco_loop [⟨4, sensor_write "7.0"⟩, ⟨3, sensor_write "25"⟩]).actions
        = [.addPh "7.0", .addTemp "25"] := by
  have hp : processLine (ReadResult.mk 7 (sensor_write "7.0" ++ sensor_write "25")).line
      = .ok [.addPh "7.0"] := by decide
  refine ⟨?_, by decide, by decide, hp, ?_, by decide⟩
  · have hlen : ((a.length : Int) + 1 + (b.length : Int)).toNat
        = (a ++ Char.ofNat 0 :: b).length := by
      simp only [List.length_append, List.length_cons]
      omega
    simp only [ReadResult.line]
    rw [hlen, List.take_length, takeWhile_nonNul_append a b ha]
  · exact (reco_loop_cons _ rest (by decide) hp).1

theorem read_is_one_token_witness :
    (ReadResult.mk ((['4', '2'] : List Char).length + 1 + (['7'] : List Char).length)
        (['4', '2'] ++ Char.ofNat 0 :: ['7'])).line = String.mk ['4', '2'] :=
  (read_is_one_token ['4', '2'] ['7'] [] (by decide)).1

/-! ## The three threads together -/

theorem Buffer.add_eq_some {b b' : Buffer} {data : String} (h : b.add data = some b') :
    b.dataQueue.length < toSizeT b.size ∧
      b' = { size := b.size, dataQueue := b.dataQueue ++ [data] } := by
  simp only [Buffer.add] at h
  by_cases hfull : toSizeT b.size ≤ b.dataQueue.length
  · simp [hfull] at h
  · simp only [hfull, if_false, Option.some.injEq] at h
    exact ⟨Nat.lt_of_not_le hfull, h.symm⟩

theorem Buffer.remove_eq_some {b b' : Buffer} {data : String}
    (h : b.remove = some (data, b')) :
    b.dataQueue = data :: b'.dataQueue ∧ b'.size = b.size := by
  simp only [Buffer.remove] at h
  cases hq : b.dataQueue with
  | nil => simp [hq] at h
  | cons d rest =>
    simp only [hq, Option.some.injEq, Prod.mk.injEq] at h
    obtain ⟨h1, h2⟩ := h
    subst h1
    subst h2
    exact ⟨rfl, rfl⟩

theorem System.inv_init (bufferSize : Int) (acts : List Action) :
    (System.init bufferSize acts).Inv bufferSize acts :=
  ⟨[], by simp [System.init, Buffer.init, phAdds, tempAdds]⟩

theorem System.collector_step {s s' : System} (h : s.step .collector = some s') :
    ∃ a rest q, s.pending = a :: rest ∧ s.queues.perform a = some q ∧
      s' = { s with queues := q, pending := rest } := by
  simp only [System.step] at h
  cases hp : s.pending with
  | nil => simp [hp] at h
  | cons a rest =>
    simp only [hp] at h
    cases hq : s.queues.perform a with
    | none => simp [hq] at h
    | some q =>
      simp only [hq, Option.some.injEq] at h
      exact ⟨a, rest, q, rfl, hq, h.symm⟩

theorem System.pH_step {s s' : System} (h : s.step .pH = some s') :
    ∃ data b, (pH_loop (fun _ => "") 0 s.takenPh).status = .waiting ∧
      s.queues.bufferPh.remove = some (data, b) ∧
      s' = { s with queues := { s.queues with bufferPh := b },
                    takenPh := s.takenPh ++ [data] } := by
  simp only [System.step] at h
  cases hst : (pH_loop (fun _ => "") 0 s.takenPh).status with
  | returned => simp [hst] at h
  | thrown e => simp [hst] at h
  | waiting =>
    simp only [hst] at h
    cases hr : s.queues.bufferPh.remove with
    | none => simp [hr] at h
    | some p =>
      obtain ⟨data, b⟩ := p
      simp only [hr, Option.some.injEq] at h
      exact ⟨data, b, rfl, rfl, h.symm⟩

theorem System.temperatura_step {s s' : System} (h : s.step .temperatura = some s') :
    ∃ data b, (temperatura_loop (fun _ => "") 0 s.takenTemp).status = .waiting ∧
      s.queues.bufferTemp.remove = some (data, b) ∧
      s' = { s with queues := { s.queues with bufferTemp := b },
                    takenTemp := s.takenTemp ++ [data] } := by
  simp only [System.step] at h
  cases hst : (temperatura_loop (fun _ => "") 0 s.takenTemp).status with
  | returned => simp [hst] at h
  | thrown e => simp [hst] at h
  | waiting =>
    simp only [hst] at h
    cases hr : s.queues.bufferTemp.remove with
    | none => simp [hr] at h
    | some p =>
      obtain ⟨data, b⟩ := p
      simp only [hr, Option.some.injEq] at h
      exact ⟨data, b, rfl, rfl, h.symm⟩

theorem Queues.perform_eq_some {q q' : Queues} {a : Action} (h : q.perform a = some q') :
    q'.bufferPh.size = q.bufferPh.size ∧ q'.bufferTemp.size = q.bufferTemp.size ∧
      q'.bufferPh.dataQueue = q.bufferPh.dataQueue ++ phAdds [a] ∧
      q'.bufferTemp.dataQueue = q.bufferTemp.dataQueue ++ tempAdds [a] := by
  cases a with
  | addPh data =>
    simp only [Queues.perform] at h
    cases hb : q.bufferPh.add data with
    | none => simp [hb] at h
    | some b =>
      simp only [hb, Option.some.injEq] at h
      obtain ⟨_, hb'⟩ := Buffer.add_eq_some hb
      subst h
      subst hb'
      simp [phAdds, tempAdds]
  | addTemp data =>
    simp only [Queues.perform] at h
    cases hb : q.bufferTemp.add data with
    | none => simp [hb] at h
    | some b =>
      simp only [hb, Option.some.injEq] at h
      obtain ⟨_, hb'⟩ := Buffer.add_eq_some hb
      subst h
      subst hb'
      simp [phAdds, tempAdds]
  | cerr msg => simp only [Queues.perform, Option.some.injEq] at h; subst h; simp [phAdds, tempAdds]
  | cout msg => simp only [Queues.perform, Option.some.injEq] at h; subst h; simp [phAdds, tempAdds]
  | sleep n => simp only [Queues.perform, Option.some.injEq] at h; subst h; simp [phAdds, tempAdds]
  | unlink => simp only [Queues.perform, Option.some.injEq] at h; subst h; simp [phAdds, tempAdds]
  | close => simp only [Queues.perform, Option.some.injEq] at h; subst h; simp [phAdds, tempAdds]
  | semPost => simp only [Queues.perform, Option.some.injEq] at h; subst h; simp [phAdds, tempAdds]

theorem System.inv_of_step {bufferSize : Int} {acts : List Action} {s s' : System} {th : Thread}
    (hs : s.Inv bufferSize acts) (h : s.step th = some s') : s'.Inv bufferSize acts := by
  obtain ⟨done, h1, h2, h3, h4, h5⟩ := hs
  cases th with
  | collector =>
    obtain ⟨a, rest, q, hp, hq, rfl⟩ := System.collector_step h
    obtain ⟨q1, q2, q3, q4⟩ := Queues.perform_eq_some hq
    refine ⟨done ++ [a], ?_, ?_, ?_, ?_, ?_⟩
    · simp [h1, hp]
    · simp only [phAdds_append, h2, q3, List.append_assoc]
    · simp only [tempAdds_append, h3, q4, List.append_assoc]
    · simp only [q1, h4]
    · simp only [q2, h5]
  | pH =>
    obtain ⟨data, b, _, hr, rfl⟩ := System.pH_step h
    obtain ⟨r1, r2⟩ := Buffer.remove_eq_some hr
    refine ⟨done, h1, ?_, h3, ?_, h5⟩
    · simp only [h2, r1, List.append_assoc, List.singleton_append]
    · simp only [r2, h4]
  | temperatura =>
    obtain ⟨data, b, _, hr, rfl⟩ := System.temperatura_step h
    obtain ⟨r1, r2⟩ := Buffer.remove_eq_some hr
    refine ⟨done, h1, h2, ?_, h4, ?_⟩
    · simp only [h3, r1, List.append_assoc, List.singleton_append]
    · simp only [r2, h5]

theorem System.inv_run {bufferSize : Int} {acts : List Action} (sched : List Thread) :
    ∀ {s : System}, s.Inv bufferSize acts → (s.run sched).Inv bufferSize acts := by
  induction sched with
  | nil =>
    intro s hs
    exact hs
  | cons th sched ih =>
    intro s hs
    simp only [System.run]
    cases hst : s.step th with
    | none => exact ih hs
    | some s' => exact ih (System.inv_of_step hs hst)

/-- Every move of a thread uses up some of what remains to be done. -/
theorem System.remaining_step {s s' : System} {th : Thread} (h : s.step th = some s') :
    s'.remaining < s.remaining := by
  cases th with
  | collector =>
    obtain ⟨a, rest, q, hp, hq, rfl⟩ := System.collector_step h
    obtain ⟨_, _, q3, q4⟩ := Queues.perform_eq_some hq
    have l1 : (phAdds [a]).length + (tempAdds [a]).length ≤ 1 := by
      cases a <;> simp [phAdds, tempAdds]
    simp only [System.remaining, hp, q3, q4, List.length_append, List.length_cons]
    omega
  | pH =>
    obtain ⟨data, b, _, hr, rfl⟩ := System.pH_step h
    obtain ⟨r1, _⟩ := Buffer.remove_eq_some hr
    simp only [System.remaining, r1, List.length_cons]
    omega
  | temperatura =>
    obtain ⟨data, b, _, hr, rfl⟩ := System.temperatura_step h
    obtain ⟨r1, _⟩ := Buffer.remove_eq_some hr
    simp only [System.remaining, r1, List.length_cons]
    omega

theorem pH_loop_waiting (clock : Nat → String) (k : Nat) (d : List String)
    (hd : ∀ t ∈ d, t ≠ "-1" ∧ ∃ v pos, stof t = .ok (v, pos)) :
    (pH_loop clock k d).status = .waiting := by
  obtain ⟨h, _⟩ := pH_loop_append clock d hd k []
  rw [List.append_nil] at h
  rw [h]
  simp [pH_loop]

theorem temperatura_loop_waiting (clock : Nat → String) (k : Nat) (d : List String)
    (hd : ∀ t ∈ d, t ≠ "-1" ∧ ∃ v pos, stoi t = .ok (v, pos)) :
    (temperatura_loop clock k d).status = .waiting := by
  obtain ⟨h, _⟩ := temperatura_loop_append clock d hd k []
  rw [List.append_nil] at h
  rw [h]
  simp [temperatura_loop]

theorem proper_prefix_concat {α : Type} {d x r : List α} {a : α} (hx : x ≠ [])
    (h : d ++ x = r ++ [a]) : d <+: r := by
  have hp : d <+: r ++ [a] := ⟨x, h⟩
  rcases List.prefix_concat_iff.mp hp with heq | hpre
  · exfalso
    have hl := congrArg List.length h
    rw [heq] at hl
    simp only [List.length_append] at hl
    have : x.length = 0 := by omega
    exact hx (List.length_eq_zero.mp this)
  · exact hpre

/-- With a capacity of at least one, and the tokens of each buffer being
readings its consumer accepts followed by the sentinel, a state in which no
thread can move is the end: the collector has made all its calls, the buffers
are empty and each consumer has taken all the tokens of its buffer. -/
theorem System.stuck_final {bufferSize : Int} {acts : List Action} {s : System}
    (rp rt : List String) (hcap : 1 ≤ toSizeT bufferSize)
    (hph : phAdds acts = rp ++ ["-1"])
    (hrp : ∀ t ∈ rp, t ≠ "-1" ∧ ∃ v pos, stof t = .ok (v, pos))
    (htemp : tempAdds acts = rt ++ ["-1"])
    (hrt : ∀ t ∈ rt, t ≠ "-1" ∧ ∃ v pos, stoi t = .ok (v, pos))
    (hs : s.Inv bufferSize acts) (hstuck : ∀ th, s.step th = none) :
    s.pending = [] ∧ s.queues.bufferPh.dataQueue = [] ∧
      s.queues.bufferTemp.dataQueue = [] ∧ s.takenPh = phAdds acts ∧
      s.takenTemp = tempAdds acts := by
  obtain ⟨done, h1, h2, h3, h4, h5⟩ := hs
  have hA : s.queues.bufferPh.dataQueue = [] := by
    cases hq : s.queues.bufferPh.dataQueue with
    | nil => rfl
    | cons d q' =>
      exfalso
      have hall : s.takenPh ++ (d :: q' ++ phAdds s.pending) = rp ++ ["-1"] := by
        rw [← hph, h1, phAdds_append, h2, hq, List.append_assoc]
      have hpre : s.takenPh <+: rp := proper_prefix_concat (by simp) hall
      have hst := pH_loop_waiting (fun _ => "") 0 s.takenPh
        (fun t ht => hrp t (hpre.subset ht))
      have := hstuck .pH
      simp [System.step, hst, Buffer.remove, hq] at this
  have hB : s.queues.bufferTemp.dataQueue = [] := by
    cases hq : s.queues.bufferTemp.dataQueue with
    | nil => rfl
    | cons d q' =>
      exfalso
      have hall : s.takenTemp ++ (d :: q' ++ tempAdds s.pending) = rt ++ ["-1"] := by
        rw [← htemp, h1, tempAdds_append, h3, hq, List.append_assoc]
      have hpre : s.takenTemp <+: rt := proper_prefix_concat (by simp) hall
      have hst := temperatura_loop_waiting (fun _ => "") 0 s.takenTemp
        (fun t ht => hrt t (hpre.subset ht))
      have := hstuck .temperatura
      simp [System.step, hst, Buffer.remove, hq] at this
  have hC : s.pending = [] := by
    cases hp : s.pending with
    | nil => rfl
    | cons a rest =>
      exfalso
      have hstep := hstuck .collector
      have f1 : ¬ toSizeT s.queues.bufferPh.size ≤ 0 := by rw [h4]; omega
      have f2 : ¬ toSizeT s.queues.bufferTemp.size ≤ 0 := by rw [h5]; omega
      cases a <;>
        simp [System.step, hp, Queues.perform, Buffer.add, hA, hB, f1, f2] at hstep
  rw [hC, List.append_nil] at h1
  subst h1
  refine ⟨hC, hA, hB, ?_, ?_⟩
  · rw [h2, hA, List.append_nil]
  · rw [h3, hB, List.append_nil]

/-- From every state some schedule leads to a state in which no thread can
move. -/
theorem System.exists_stuck : ∀ (n : Nat) (s : System), s.remaining ≤ n →
    ∃ sched, ∀ th, (s.run sched).step th = none := by
  intro n
  induction n with
  | zero =>
    intro s hn
    refine ⟨[], fun th => ?_⟩
    cases hst : s.step th with
    | none => simpa [System.run] using hst
    | some s' =>
      have := System.remaining_step hst
      omega
  | succ n ih =>
    intro s hn
    by_cases hstuck : ∀ th, s.step th = none
    · exact ⟨[], hstuck⟩
    · push_neg at hstuck
      obtain ⟨th, hth⟩ := hstuck
      cases hst : s.step th with
      | none => exact absurd hst hth
      | some s' =>
        have hlt := System.remaining_step hst
        obtain ⟨sched, hsched⟩ := ih s' (by omega)
        refine ⟨th :: sched, ?_⟩
        simpa [System.run, hst] using hsched

theorem System.zero_step {acts : List Action} {s s' : System} {th : Thread}
    (hz : s.queues.bufferPh = ⟨0, []⟩ ∧ s.queues.bufferTemp = ⟨0, []⟩ ∧ s.takenPh = [] ∧
      s.takenTemp = [] ∧ phAdds s.pending = phAdds acts ∧ tempAdds s.pending = tempAdds acts)
    (h : s.step th = some s') :
    s'.queues.bufferPh = ⟨0, []⟩ ∧ s'.queues.bufferTemp = ⟨0, []⟩ ∧ s'.takenPh = [] ∧
      s'.takenTemp = [] ∧ phAdds s'.pending = phAdds acts ∧
      tempAdds s'.pending = tempAdds acts := by
  obtain ⟨z1, z2, z3, z4, z5, z6⟩ := hz
  cases th with
  | collector =>
    obtain ⟨a, rest, q, hp, hq, rfl⟩ := System.collector_step h
    rw [hp] at z5 z6
    cases a with
    | addPh data =>
      have : toSizeT 0 = 0 := by decide
      simp [Queues.perform, Buffer.add, z1, this] at hq
    | addTemp data =>
      have : toSizeT 0 = 0 := by decide
      simp [Queues.perform, Buffer.add, z2, this] at hq
    | cerr msg =>
      simp only [Queues.perform, Option.some.injEq] at hq
      subst hq
      exact ⟨z1, z2, z3, z4, by simpa [phAdds] using z5, by simpa [tempAdds] using z6⟩
    | cout msg =>
      simp only [Queues.perform, Option.some.injEq] at hq
      subst hq
      exact ⟨z1, z2, z3, z4, by simpa [phAdds] using z5, by simpa [tempAdds] using z6⟩
    | sleep n =>
      simp only [Queues.perform, Option.some.injEq] at hq
      subst hq
      exact ⟨z1, z2, z3, z4, by simpa [phAdds] using z5, by simpa [tempAdds] using z6⟩
    | unlink =>
      simp only [Queues.perform, Option.some.injEq] at hq
      subst hq
      exact ⟨z1, z2, z3, z4, by simpa [phAdds] using z5, by simpa [tempAdds] using z6⟩
    | close =>
      simp only [Queues.perform, Option.some.injEq] at hq
      subst hq
      exact ⟨z1, z2, z3, z4, by simpa [phAdds] using z5, by simpa [tempAdds] using z6⟩
    | semPost =>
      simp only [Queues.perform, Option.some.injEq] at hq
      subst hq
      exact ⟨z1, z2, z3, z4, by simpa [phAdds] using z5, by simpa [tempAdds] using z6⟩
  | pH =>
    obtain ⟨data, b, _, hr, _⟩ := System.pH_step h
    simp [Buffer.remove, z1] at hr
  | temperatura =>
    obtain ⟨data, b, _, hr, _⟩ := System.temperatura_step h
    simp [Buffer.remove, z2] at hr

theorem System.zero_run {acts : List Action} (sched : List Thread) : ∀ {s : System},
    (s.queues.bufferPh = ⟨0, []⟩ ∧ s.queues.bufferTemp = ⟨0, []⟩ ∧ s.takenPh = [] ∧
      s.takenTemp = [] ∧ phAdds s.pending = phAdds acts ∧
      tempAdds s.pending = tempAdds acts) →
    ((s.run sched).queues.bufferPh = ⟨0, []⟩ ∧ (s.run sched).queues.bufferTemp = ⟨0, []⟩ ∧
      (s.run sched).takenPh = [] ∧ (s.run sched).takenTemp = [] ∧
      phAdds (s.run sched).pending = phAdds acts ∧
      tempAdds (s.run sched).pending = tempAdds acts) := by
  induction sched with
  | nil =>
    intro s hz
    exact hz
  | cons th sched ih =>
    intro s hz
    simp only [System.run]
    cases hst : s.step th with
    | none => exact ih hz
    | some s' => exact ih (System.zero_step hz hst)

/-! ## The capacity and the whole run -/

/-- C14: with capacity 0, which is what `main` gives both buffers when the
option `-b` is absent, `add` cannot complete on a queue of any length. So
whatever the collector has to do and however the threads are scheduled, both
queues stay empty, no `remove` returns, every `add` of the collector is still
pending, the sentinel among them, and no consumer writes or reports
anything. -/
theorem capacity_zero_blocks (acts : List Action) (sched : List Thread) (b : Buffer)
    (data : String) (clock : Nat → String) :
    main_bufferSize none = 0 ∧ (b.size = 0 → b.add data = none) ∧
      ((System.init (main_bufferSize none) acts).run sched).queues.bufferPh.dataQueue = [] ∧
      ((System.init (main_bufferSize none) acts).run sched).queues.bufferTemp.dataQueue = [] ∧
      ((System.init (main_bufferSize none) acts).run sched).takenPh = [] ∧
      ((System.init (main_bufferSize none) acts).run sched).takenTemp = [] ∧
      phAdds ((System.init (main_bufferSize none) acts).run sched).pending = phAdds acts ∧
      tempAdds ((System.init (main_bufferSize none) acts).run sched).pending
        = tempAdds acts ∧
      ((System.init (main_bufferSize none) acts).run sched).step .pH = none ∧
      ((System.init (main_bufferSize none) acts).run sched).step .temperatura = none ∧
      pH_loop clock 0 ((System.init (main_bufferSize none) acts).run sched).takenPh
        = { sink := [], alerts := [], taken := 0, status := .waiting } ∧
      temperatura_loop clock 0 ((System.init (main_bufferSize none) acts).run sched).takenTemp
        = { sink := [], alerts := [], taken := 0, status := .waiting } := by
  have hinit : (System.init (main_bufferSize none) acts).queues.bufferPh = ⟨0, []⟩ ∧
      (System.init (main_bufferSize none) acts).queues.bufferTemp = ⟨0, []⟩ ∧
      (System.init (main_bufferSize none) acts).takenPh = [] ∧
      (System.init (main_bufferSize none) acts).takenTemp = [] ∧
      phAdds (System.init (main_bufferSize none) acts).pending = phAdds acts ∧
      tempAdds (System.init (main_bufferSize none) acts).pending = tempAdds acts :=
    ⟨rfl, rfl, rfl, rfl, rfl, rfl⟩
  obtain ⟨z1, z2, z3, z4, z5, z6⟩ := System.zero_run sched hinit
  refine ⟨rfl, ?_, by rw [z1], by rw [z2], z3, z4, z5, z6, ?_, ?_, ?_, ?_⟩
  · intro hb
    have : toSizeT 0 = 0 := by decide
    simp [Buffer.add, hb, this]
  · simp [System.step, z1, z3, pH_loop, Buffer.remove]
  · simp [System.step, z2, z4, temperatura_loop, Buffer.remove]
  · rw [z3]
    simp [pH_loop]
  · rw [z4]
    simp [temperatura_loop]

theorem capacity_zero_blocks_witness :
    (⟨0, ["a", "b"]⟩ : Buffer).add "c" = none :=
  (capacity_zero_blocks [] [] ⟨0, ["a", "b"]⟩ "c" (fun _ => "12:00:00")).2.1 rfl

/-- C13: the end-to-end scenario. The emitter writes `7.0`, `25`, `9.5`, `-3`,
each read returns one write, then `read` returns `0`; the capacity is at
least one. The collector passes `7.0` and `9.5` to the pH buffer and `25` to
the temperature buffer, reports `-3` without passing it on, and then adds the
two sentinels. Under every schedule the tokens a consumer has taken are an
initial part of those of its buffer, every move brings the end nearer, and a
state in which no thread can move is the end, which some schedule reaches:
both buffers empty, the pH consumer returned with the two lines 7.0 and 9.5
written and the one alert for 9.5, the temperature consumer returned with the
one line 25 written and no alert. -/
theorem end_to_end (C pipeFd : Int) (pipeName : String) (clockPh clockTemp : Nat → String)
    (sched : List Thread) (hC : 1 ≤ C) (hC' : C ≤ 2147483647) (hfd : 0 ≤ pipeFd) :
    (reco_hilo pipeFd pipeName scenarioReads).actions
        = [.addPh "7.0", .addTemp "25", .addPh "9.5", .cerr msgNegative, .sleep 10,
           .addPh "-1", .addTemp "-1", .unlink,
           .cout "Finalizado el procesamiento de mediciones", .close] ∧
      ((System.init C (reco_hilo pipeFd pipeName scenarioReads).actions).run sched).takenPh
        <+: ["7.0", "9.5", "-1"] ∧
      ((System.init C (reco_hilo pipeFd pipeName scenarioReads).actions).run sched).takenTemp
        <+: ["25", "-1"] ∧
      (∀ th s',
        ((System.init C (reco_hilo pipeFd pipeName scenarioReads).actions).run sched).step th
          = some s' →
        s'.remaining
          < ((System.init C (reco_hilo pipeFd pipeName scenarioReads).actions).run
              sched).remaining) ∧
      ((∀ th,
          ((System.init C (reco_hilo pipeFd pipeName scenarioReads).actions).run sched).step th
            = none) ↔
        (System.init C (reco_hilo pipeFd pipeName scenarioReads).actions).run sched
          = { queues := { bufferPh := ⟨C, []⟩, bufferTemp := ⟨C, []⟩ }, pending := [],
              takenPh := ["7.0", "9.5", "-1"], takenTemp := ["25", "-1"] }) ∧
      (∃ sched',
        (System.init C (reco_hilo pipeFd pipeName scenarioReads).actions).run sched'
          = { queues := { bufferPh := ⟨C, []⟩, bufferTemp := ⟨C, []⟩ }, pending := [],
              takenPh := ["7.0", "9.5", "-1"], takenTemp := ["25", "-1"] }) ∧
      pH_loop clockPh 0 ["7.0", "9.5", "-1"]
        = { sink := [(.finite false 14680064 (-21), clockPh 0),
                     (.finite false 9961472 (-20), clockPh 1)],
            alerts := [.finite false 9961472 (-20)], taken := 3, status := .returned } ∧
      (FloatVal.finite false 14680064 (-21)).toRat = some 7 ∧
      (FloatVal.finite false 9961472 (-20)).toRat = some (19 / 2) ∧
      temperatura_loop clockTemp 0 ["25", "-1"]
        = { sink := [(25, clockTemp 0)], alerts := [], taken := 2, status := .returned } := by
  have hloop : reco_loop scenarioReads
      = { actions := [.addPh "7.0", .addTemp "25", .addPh "9.5", .cerr msgNegative, .sleep 10,
            .addPh "-1", .addTemp "-1", .unlink,
            .cout "Finalizado el procesamiento de mediciones"],
          status := .returned } := by decide
  have hacts : (reco_hilo pipeFd pipeName scenarioReads).actions
      = [.addPh "7.0", .addTemp "25", .addPh "9.5", .cerr msgNegative, .sleep 10,
         .addPh "-1", .addTemp "-1", .unlink,
         .cout "Finalizado el procesamiento de mediciones", .close] := by
    have : ¬ pipeFd < 0 := by omega
    simp [reco_hilo, this, hloop]
  rw [hacts]
  generalize hacts' : ([.addPh "7.0", .addTemp "25", .addPh "9.5", .cerr msgNegative,
    .sleep 10, .addPh "-1", .addTemp "-1", .unlink,
    .cout "Finalizado el procesamiento de mediciones", .close] : List Action) = acts
  have hph : phAdds acts = ["7.0", "9.5"] ++ ["-1"] := by subst hacts'; rfl
  have htemp : tempAdds acts = ["25"] ++ ["-1"] := by subst hacts'; rfl
  have hrp : ∀ t ∈ (["7.0", "9.5"] : List String),
      t ≠ "-1" ∧ ∃ v pos, stof t = .ok (v, pos) := by
    intro t ht
    simp only [List.mem_cons, List.mem_singleton, List.not_mem_nil, or_false] at ht
    rcases ht with rfl | rfl
    · exact ⟨by decide, _, _, (by decide : stof "7.0" = .ok (.finite false 14680064 (-21), 3))⟩
    · exact ⟨by decide, _, _, (by decide : stof "9.5" = .ok (.finite false 9961472 (-20), 3))⟩
  have hrt : ∀ t ∈ (["25"] : List String), t ≠ "-1" ∧ ∃ v pos, stoi t = .ok (v, pos) := by
    intro t ht
    simp only [List.mem_singleton] at ht
    subst ht
    exact ⟨by decide, _, _, (by decide : stoi "25" = .ok (25, 2))⟩
  have hcap : 1 ≤ toSizeT C := by
    have := toSizeT_of_lt (by omega : 0 ≤ C) (by omega : C < 2 ^ 64)
    omega
  have hinv : ∀ sch, ((System.init C acts).run sch).Inv C acts :=
    fun sch => System.inv_run sch (System.inv_init C acts)
  have hfinal : ∀ s : System, s.Inv C acts → (∀ th, s.step th = none) →
      s = { queues := { bufferPh := ⟨C, []⟩, bufferTemp := ⟨C, []⟩ }, pending := [],
            takenPh := ["7.0", "9.5", "-1"], takenTemp := ["25", "-1"] } := by
    intro s hs hstuck
    obtain ⟨f1, f2, f3, f4, f5⟩ :=
      System.stuck_final ["7.0", "9.5"] ["25"] hcap hph hrp htemp hrt hs hstuck
    obtain ⟨_, _, _, _, g4, g5⟩ := hs
    have hs' : s = { queues := { bufferPh := ⟨s.queues.bufferPh.size,
                                              s.queues.bufferPh.dataQueue⟩,
                                 bufferTemp := ⟨s.queues.bufferTemp.size,
                                                s.queues.bufferTemp.dataQueue⟩ },
                     pending := s.pending, takenPh := s.takenPh,
                     takenTemp := s.takenTemp } := rfl
    rw [hs', f1, f2, f3, f4, f5, g4, g5, hph, htemp]
    rfl
  refine ⟨rfl, ?_, ?_, ?_, ?_, ?_, ?_, ?_, ?_, ?_⟩
  · obtain ⟨done, h1, h2, _, _, _⟩ := hinv sched
    refine ⟨((System.init C acts).run sched).queues.bufferPh.dataQueue
      ++ phAdds ((System.init C acts).run sched).pending, ?_⟩
    rw [← List.append_assoc, ← h2, ← phAdds_append, ← h1, hph]
    rfl
  · obtain ⟨done, h1, _, h3, _, _⟩ := hinv sched
    refine ⟨((System.init C acts).run sched).queues.bufferTemp.dataQueue
      ++ tempAdds ((System.init C acts).run sched).pending, ?_⟩
    rw [← List.append_assoc, ← h3, ← tempAdds_append, ← h1, htemp]
    rfl
  · intro th s' hst
    exact System.remaining_step hst
  · constructor
    · exact hfinal _ (hinv sched)
    · intro heq th
      rw [heq]
      cases th with
      | collector => simp [System.step]
      | pH =>
        have : (pH_loop (fun _ => "") 0 ["7.0", "9.5", "-1"]).status = .returned := by decide
        simp [System.step, this]
      | temperatura =>
        have : (temperatura_loop (fun _ => "") 0 ["25", "-1"]).status = .returned := by
          decide
        simp [System.step, this]
  · obtain ⟨sched', hs'⟩ := System.exists_stuck _ (System.init C acts) le_rfl
    exact ⟨sched', hfinal _ (hinv sched') hs'⟩
  · have h7 : stof "7.0" = .ok (.finite false 14680064 (-21), 3) := by decide
    have h9 : stof "9.5" = .ok (.finite false 9961472 (-20), 3) := by decide
    have a7 : pHAlert (.finite false 14680064 (-21)) = false := by decide
    have a9 : pHAlert (.finite false 9961472 (-20)) = true := by decide
    have n7 : ("7.0" : String) ≠ "-1" := by decide
    have n9 : ("9.5" : String) ≠ "-1" := by decide
    simp [pH_loop, h7, h9, a7, a9, n7, n9]
  · simp only [FloatVal.toRat, signed]
    norm_num
  · simp only [FloatVal.toRat, signed]
    norm_num
  · have h25 : stoi "25" = .ok (25, 2) := by decide
    have a25 : tempAlert 25 = false := by decide
    have n25 : ("25" : String) ≠ "-1" := by decide
    simp [temperatura_loop, h25, a25, n25]

theorem end_to_end_witness :
    ∃ sched',
      (System.init 1 (reco_hilo 3 "pipe" scenarioReads).actions).run sched'
        = { queues := { bufferPh := ⟨1, []⟩, bufferTemp := ⟨1, []⟩ }, pending := [],
            takenPh := ["7.0", "9.5", "-1"], takenTemp := ["25", "-1"] } :=
  (end_to_end 1 3 "pipe" (fun _ => "12:00:00") (fun _ => "12:00:00") []
    (by decide) (by decide) (by decide)).2.2.2.2.2.1

/-! ## Digit-only tokens -/

theorem isdigit_facts {c : Char} (h : isdigit c = true) :
    tolower c = c ∧ c ≠ 'i' ∧ c ≠ 'n' ∧ c ≠ 'x' ∧ c ≠ '.' := by
  refine ⟨?_, ?_, ?_, ?_, ?_⟩
  · simp only [isdigit, Bool.and_eq_true, decide_eq_true_eq] at h
    have : ¬ (65 ≤ c.toNat ∧ c.toNat ≤ 90) := by omega
    simp [tolower, this]
  · rintro rfl
    exact absurd h (by decide)
  · rintro rfl
    exact absurd h (by decide)
  · rintro rfl
    exact absurd h (by decide)
  · rintro rfl
    exact absurd h (by decide)

theorem map_tolower_digits (ds : List Char) (hd : ∀ c ∈ ds, isdigit c = true) :
    ds.map tolower = ds := by
  induction ds with
  | nil => rfl
  | cons c cs ih =>
    rw [List.map_cons, (isdigit_facts (hd c (List.mem_cons_self _ _))).1,
      ih (fun x hx => hd x (List.mem_cons_of_mem _ hx))]

/-- On a string of digits `strtof` reads all of it as a decimal number. -/
theorem strtofBody_digits (neg : Bool) (ds : List Char) (hne : ds ≠ [])
    (hd : ∀ c ∈ ds, isdigit c = true) :
    strtofBody neg ds =
      match digitsToFloat neg 10 10 38 45 ds 0 with
      | .ok v => .ok (v, ds.length)
      | .error err => .error err := by
  cases ds with
  | nil => exact absurd rfl hne
  | cons c0 cs =>
    obtain ⟨_, hi, hn, _, _⟩ := isdigit_facts (hd c0 (List.mem_cons_self _ _))
    have hlow := map_tolower_digits (c0 :: cs) hd
    have h1 : ¬ ((c0 :: cs).take 3 = ['i', 'n', 'f']) := by
      intro h
      simp only [List.take_succ_cons, List.cons.injEq] at h
      exact hi h.1
    have h2 : ¬ ((c0 :: cs).take 3 = ['n', 'a', 'n']) := by
      intro h
      simp only [List.take_succ_cons, List.cons.injEq] at h
      exact hn h.1
    have h3 : ¬ ((c0 :: cs).take 2 = ['0', 'x']) := by
      intro h
      cases cs with
      | nil => simp at h
      | cons c1 cs' =>
        simp only [List.take_succ_cons, List.cons.injEq] at h
        have hc1 := hd c1 (by simp)
        exact (isdigit_facts hc1).2.2.2.1 h.2.1
    have h4 : (c0 :: cs).takeWhile isdigit = c0 :: cs := List.takeWhile_eq_self_iff.mpr hd
    simp only [strtofBody, hlow, h1, h2, h3, if_false, false_and, h4, List.drop_length,
      takeFraction, List.append_nil, List.isEmpty_cons, Bool.false_eq_true, add_zero,
      takeExponent, List.length_nil, Nat.cast_zero, sub_zero]

theorem stof_digits (ds : List Char) (hne : ds ≠ []) (hd : ∀ c ∈ ds, isdigit c = true) :
    stof (String.mk ds) =
      match digitsToFloat false 10 10 38 45 ds 0 with
      | .ok v => .ok (v, ds.length)
      | .error err => .error err := by
  have hhead : ∀ c ∈ ds.head?, isspace c = false := by
    intro c hc
    cases ds with
    | nil => exact absurd rfl hne
    | cons d ds' =>
      simp only [List.head?_cons, Option.mem_def, Option.some.injEq] at hc
      subst hc
      exact (isdigit_not_sign (hd _ (List.mem_cons_self _ _))).2.2
  have hdrop : ds.dropWhile isspace = ds := by
    simpa using dropWhile_isspace_append [] ds (by simp) hhead
  have hsign : takeSign ds = (false, ds) := by
    simpa using takeSign_digits [] ds (Or.inl rfl) hne hd
  simp only [stof, hdrop, hsign, strtofBody_digits false ds hne hd]
  cases digitsToFloat false 10 10 38 45 ds 0 with
  | error e => rfl
  | ok v => simp

theorem bitLenAux_spec : ∀ (fuel n : Nat), n ≠ 0 → n ≤ fuel →
    ∃ b, bitLenAux fuel n = b + 1 ∧ 2 ^ b ≤ n ∧ n < 2 ^ (b + 1) := by
  intro fuel
  induction fuel with
  | zero =>
    intro n hn hle
    omega
  | succ fuel ih =>
    intro n hn hle
    simp only [bitLenAux, hn, if_false]
    by_cases h2 : n / 2 = 0
    · refine ⟨0, ?_, ?_, ?_⟩
      · rw [h2]
        cases fuel <;> simp [bitLenAux]
      · simp only [pow_zero]
        omega
      · simp only [zero_add, pow_one]
        omega
    · obtain ⟨b, hb, hlo, hhi⟩ := ih (n / 2) h2 (by omega)
      refine ⟨b + 1, by rw [hb], ?_, ?_⟩
      · rw [pow_succ]
        omega
      · rw [pow_succ]
        omega

theorem bitLen_spec {n : Nat} (hn : n ≠ 0) :
    ∃ b, bitLen n = b + 1 ∧ 2 ^ b ≤ n ∧ n < 2 ^ (b + 1) :=
  bitLenAux_spec n n hn le_rfl

/-- The `float` of a positive integer: it exists when the integer is below
`2 ^ 128 - 2 ^ 103`, the middle between the largest `float` and `2 ^ 128`,
and the conversion overflows from there on. -/
theorem roundBinary32_nat (neg : Bool) (v : Nat) (hv : v ≠ 0) :
    (v < 2 ^ 128 - 2 ^ 103 → ∃ m e, roundBinary32 neg v 1 = .ok (.finite neg m e)) ∧
      (2 ^ 128 - 2 ^ 103 ≤ v → roundBinary32 neg v 1 = .error .out_of_range) := by
  obtain ⟨b, hb, hlo, hhi⟩ := bitLen_spec hv
  have hb1 : bitLen 1 = 1 := by decide
  have hl : ((bitLen v : Int) - (bitLen 1 : Int)) = (b : Int) := by
    rw [hb, hb1]
    push_cast
    omega
  have hsc : scale2 v 1 (b : Int) = (v, 1 * 2 ^ b) := by
    simp [scale2]
  have he : (if (scale2 v 1 (b : Int)).2 ≤ (scale2 v 1 (b : Int)).1 then (b : Int)
      else (b : Int) - 1) = (b : Int) := by
    rw [hsc]
    simp [hlo]
  have hnot : ¬ ((b : Int) < -126) := by omega
  have hround : roundBinary32 neg v 1 =
      (if 104 < (if roundNearestEven (scale2 v 1 ((b : Int) - 23)).1
                (scale2 v 1 ((b : Int) - 23)).2 = 16777216
              then ((8388608 : Nat), (b : Int) - 22)
              else (roundNearestEven (scale2 v 1 ((b : Int) - 23)).1
                (scale2 v 1 ((b : Int) - 23)).2, (b : Int) - 23)).2
        then .error .out_of_range
        else .ok (.finite neg
          (if roundNearestEven (scale2 v 1 ((b : Int) - 23)).1
                (scale2 v 1 ((b : Int) - 23)).2 = 16777216
              then ((8388608 : Nat), (b : Int) - 22)
              else (roundNearestEven (scale2 v 1 ((b : Int) - 23)).1
                (scale2 v 1 ((b : Int) - 23)).2, (b : Int) - 23)).1
          (if roundNearestEven (scale2 v 1 ((b : Int) - 23)).1
                (scale2 v 1 ((b : Int) - 23)).2 = 16777216
              then ((8388608 : Nat), (b : Int) - 22)
              else (roundNearestEven (scale2 v 1 ((b : Int) - 23)).1
                (scale2 v 1 ((b : Int) - 23)).2, (b : Int) - 23)).2)) := by
    simp only [roundBinary32, hv, if_false, hl, he, hnot]
  have hsc104 : scale2 v 1 ((127 : Nat) - 23 : Int) = (v, 1 * 2 ^ 104) := by
    simp [scale2]
  constructor
  · intro hlt
    have hb127 : b ≤ 127 := by
      by_contra hcon
      have h128 : 2 ^ 128 ≤ 2 ^ b := Nat.pow_le_pow_right (by norm_num) (by omega)
      omega
    rw [hround]
    by_cases hb' : b = 127
    · subst hb'
      have hR : roundNearestEven (scale2 v 1 ((127 : Nat) - 23 : Int)).1
          (scale2 v 1 ((127 : Nat) - 23 : Int)).2 ≠ 16777216 := by
        rw [hsc104]
        simp only [roundNearestEven, one_mul]
        split
        · omega
        · split
          · omega
          · split <;> omega
      simp only [hR, if_false]
      have : ¬ (104 < ((127 : Nat) : Int) - 23) := by norm_num
      simp only [this, if_false]
      exact ⟨_, _, rfl⟩
    · by_cases hR : roundNearestEven (scale2 v 1 ((b : Int) - 23)).1
          (scale2 v 1 ((b : Int) - 23)).2 = 16777216
      · simp only [hR, if_true]
        have : ¬ (104 < (b : Int) - 22) := by omega
        simp only [this, if_false]
        exact ⟨_, _, rfl⟩
      · simp only [hR, if_false]
        have : ¬ (104 < (b : Int) - 23) := by omega
        simp only [this, if_false]
        exact ⟨_, _, rfl⟩
  · intro hge
    have hb127 : 127 ≤ b := by
      by_contra hcon
      have h127 : 2 ^ (b + 1) ≤ 2 ^ 127 := Nat.pow_le_pow_right (by norm_num) (by omega)
      omega
    rw [hround]
    by_cases hb' : b = 127
    · subst hb'
      have hR : roundNearestEven (scale2 v 1 ((127 : Nat) - 23 : Int)).1
          (scale2 v 1 ((127 : Nat) - 23 : Int)).2 = 16777216 := by
        rw [hsc104]
        simp only [roundNearestEven, one_mul]
        split
        · omega
        · split
          · omega
          · split <;> omega
      simp only [hR, if_true]
      have : (104 < ((127 : Nat) : Int) - 22) := by norm_num
      simp only [this, if_true]
    · by_cases hR : roundNearestEven (scale2 v 1 ((b : Int) - 23)).1
          (scale2 v 1 ((b : Int) - 23)).2 = 16777216
      · simp only [hR, if_true]
        have : (104 < (b : Int) - 22) := by omega
        simp only [this, if_true]
      · simp only [hR, if_false]
        have : (104 < (b : Int) - 23) := by omega
        simp only [this, if_true]

theorem digitsToFloat_nat (neg : Bool) (ds : List Char) (hv : digitsValue 10 ds ≠ 0) :
    digitsToFloat neg 10 10 38 45 ds 0 = roundBinary32 neg (digitsValue 10 ds) 1 := by
  have h1 : ¬ ((38 : Int) < 0) := by norm_num
  have h2 : ¬ ((0 : Int) + (ds.length : Int) * (if (10 : Nat) = 16 then 4 else 1) < -45) := by
    simp only [Nat.reduceEqDiff, if_false]
    omega
  simp only [digitsToFloat, hv, if_false, h1, h2, le_refl, if_true, Int.toNat_zero, pow_zero,
    mul_one]

/-- C15: a token of digits only. When its value fits an `int` it is `Integer`
and goes to the temperature buffer. When it does not, `std::stoi` fails with
`out_of_range` and `is_integer` is false; then, as long as the value is below
`2 ^ 128 - 2 ^ 103` and so has a `float`, `is_float` accepts the token, which
is `Float` and goes to the pH buffer; from there on `std::stof` fails too and
the token is `Invalid`. The token `3000000000` goes to the pH buffer. -/
theorem digit_token_routing (ds : List Char) (hne : ds ≠ [])
    (hd : ∀ c ∈ ds, isdigit c = true) :
    (digitsValue 10 ds ≤ 2147483647 →
        classify (String.mk ds) = .Integer (digitsValue 10 ds) ∧
        processLine (String.mk ds) = .ok [.addTemp (String.mk ds)]) ∧
      (2147483647 < digitsValue 10 ds →
        stoi (String.mk ds) = .error .out_of_range ∧ is_integer (String.mk ds) = false) ∧
      (2147483647 < digitsValue 10 ds → digitsValue 10 ds < 2 ^ 128 - 2 ^ 103 →
        is_float (String.mk ds) = true ∧
        (∃ m e, classify (String.mk ds) = .Float (.finite false m e)) ∧
        processLine (String.mk ds) = .ok [.addPh (String.mk ds)]) ∧
      (2 ^ 128 - 2 ^ 103 ≤ digitsValue 10 ds →
        stof (String.mk ds) = .error .out_of_range ∧ classify (String.mk ds) = .Invalid ∧
        processLine (String.mk ds) = .ok [.cerr msgInvalid]) ∧
      (stoi "3000000000" = .error .out_of_range ∧ is_integer "3000000000" = false ∧
        is_float "3000000000" = true ∧
        processLine "3000000000" = .ok [.addPh "3000000000"]) := by
  have hlen : (String.mk ds).length = ds.length := rfl
  have hbig : 2147483647 < digitsValue 10 ds →
      stoi (String.mk ds) = .error .out_of_range ∧ is_integer (String.mk ds) = false := by
    intro hgt
    have hhead : ∀ c ∈ ds.head?, isspace c = false := by
      intro c hc
      cases ds with
      | nil => exact absurd rfl hne
      | cons d ds' =>
        simp only [List.head?_cons, Option.mem_def, Option.some.injEq] at hc
        subst hc
        exact (isdigit_not_sign (hd _ (List.mem_cons_self _ _))).2.2
    have hdrop : ds.dropWhile isspace = ds := by
      simpa using dropWhile_isspace_append [] ds (by simp) hhead
    have hsign : takeSign ds = (false, ds) := by
      simpa using takeSign_digits [] ds (Or.inl rfl) hne hd
    have hself : ds.takeWhile isdigit = ds := List.takeWhile_eq_self_iff.mpr hd
    have hemp : ds.isEmpty = false := by
      cases ds with
      | nil => exact absurd rfl hne
      | cons _ _ => rfl
    have hrange : (signed false (digitsValue 10 ds) < -2147483648 ∨
        2147483647 < signed false (digitsValue 10 ds)) := by
      right
      simp only [signed, Bool.false_eq_true, if_false]
      omega
    have hstoi : stoi (String.mk ds) = .error .out_of_range := by
      simp only [stoi, hdrop, hsign, hself, hemp, Bool.false_eq_true, if_false, hrange,
        if_true]
    refine ⟨hstoi, ?_⟩
    simp [is_integer, hstoi]
  refine ⟨?_, hbig, ?_, ?_, by decide⟩
  · intro hle
    have htok : IntegerToken (String.mk ds).data (digitsValue 10 ds : Int) := by
      refine ⟨[], [], ds, by simp, by simp, Or.inl rfl, hne, hd, ?_, by omega, by omega⟩
      simp [signed]
    have hs := (stoi_ok_iff (String.mk ds) _).mpr htok
    have hi := (is_integer_iff (String.mk ds)).mpr ⟨_, hs⟩
    rcases classify_cases (String.mk ds) with ⟨v, _, hs', hc, hp⟩ | ⟨v, hi', _⟩ | ⟨hi', _⟩
    · rw [hs] at hs'
      simp only [Except.ok.injEq, Prod.mk.injEq, and_true] at hs'
      subst hs'
      refine ⟨hc, ?_⟩
      rw [hp]
      simp
    · rw [hi] at hi'
      cases hi'
    · rw [hi] at hi'
      cases hi'
  · intro hgt hlt
    have hv : digitsValue 10 ds ≠ 0 := by omega
    obtain ⟨m, e, hr⟩ := (roundBinary32_nat false (digitsValue 10 ds) hv).1 hlt
    have hs : stof (String.mk ds) = .ok (.finite false m e, (String.mk ds).length) := by
      rw [stof_digits ds hne hd, digitsToFloat_nat false ds hv, hr, hlen]
    have hf := (is_float_iff (String.mk ds)).mpr ⟨_, hs⟩
    have hi := (hbig hgt).2
    refine ⟨hf, ?_⟩
    rcases classify_cases (String.mk ds) with ⟨v, hi', _⟩ | ⟨v, _, _, hs', hc, hp⟩ | ⟨_, hf', _⟩
    · rw [hi] at hi'
      cases hi'
    · rw [hs] at hs'
      simp only [Except.ok.injEq, Prod.mk.injEq, and_true] at hs'
      subst hs'
      refine ⟨⟨m, e, hc⟩, ?_⟩
      rw [hp]
      simp [FloatVal.geZero]
    · rw [hf] at hf'
      cases hf'
  · intro hge
    have hv : digitsValue 10 ds ≠ 0 := by omega
    have hr := (roundBinary32_nat false (digitsValue 10 ds) hv).2 hge
    have hs : stof (String.mk ds) = .error .out_of_range := by
      rw [stof_digits ds hne hd, digitsToFloat_nat false ds hv, hr]
    have hf : is_float (String.mk ds) = false := by simp [is_float, hs]
    have hi := (hbig (by omega)).2
    refine ⟨hs, ?_⟩
    rcases classify_cases (String.mk ds) with ⟨v, hi', _⟩ | ⟨v, _, hf', _⟩ | ⟨_, _, hc, hp⟩
    · rw [hi] at hi'
      cases hi'
    · rw [hf] at hf'
      cases hf'
    · exact ⟨hc, hp⟩

theorem digit_token_routing_witness :
    classify (String.mk ['4', '2']) = .Integer (digitsValue 10 ['4', '2']) ∧
      processLine (String.mk ['4', '2']) = .ok [.addTemp (String.mk ['4', '2'])] :=
  (digit_token_routing ['4', '2'] (by decide) (by decide)).1 (by decide)

end MoniSenso
